import Mathlib

/-!
# go-logger: the `Logger` interface, the simple logger and the no-op logger

A shallow embedding of `log.go`.

* Go maps are reference values: a `map[string]interface{}` is either `nil` or
  the address of a map object.  The map objects live in a `Heap`; a map
  object is an association list with pairwise distinct keys (`AList`).
* `range` over a map visits every entry exactly once in an order chosen by
  the runtime.  Every function with such a loop takes the visiting order as
  an argument; the runtime guarantees that it is a permutation of the
  entries of the map.
* The standard logger (`stdlog`) is the list of the texts handed to it, oldest
  first.  Its own header (prefix, time stamp) and the newline it adds are
  not part of that text.
* A run-time panic is `none`.
* A string is its sequence of characters.  The only slice expression of the
  program, `s[:len(s)-1]` in `pretty`, cuts off one ASCII space, for which
  the byte position and the character position are the same.
-/

namespace GoLogger

/-! ## Values of type `interface{}` -/

/-- A dynamic value held in an `interface{}`. -/
inductive Value where
  /-- a value of type `string` -/
  | str (s : String)
  /-- a value of type `int` -/
  | int (i : Int)
  /-- a value of type `bool` -/
  | bool (b : Bool)
  /-- the nil interface value -/
  | nil
  /-- a value of any other type whose kind is not string: the name of its
  type and its representation under the verb v -/
  | other (typ : String) (repr : String)
  deriving DecidableEq

namespace Value

/-- The test of `doPrint`: `arg != nil && reflect.TypeOf(arg).Kind() == reflect.String`. -/
def isString : Value → Bool
  | str _ => true
  | _ => false

/-- The default representation, what `printArg(arg, 'v')` writes without flags. -/
def repr : Value → String
  | str s => s
  | int i => toString i
  | bool b => if b then "true" else "false"
  | nil => "<nil>"
  | other _ r => r

/-- The text of `reflect.TypeOf(arg).String()` for a non-nil value. -/
def typeName : Value → String
  | str _ => "string"
  | int _ => "int"
  | bool _ => "bool"
  | nil => "<nil>"
  | other t _ => t

end Value

/-! ## The formatting library `fmt` -/

/-- The operand state of `doPrintf`: the index of the next operand and
whether an explicit argument index has been used. -/
structure PState where
  argNum : Nat
  reordered : Bool
  deriving DecidableEq

/-- The part of `fmt` that the development leaves open.  `printArg` is what
the library writes for a value under a verb other than the ones fixed in
`GoLogger.printArg`; `complex` handles a directive that is more than one
plain lower-case verb with an operand at hand (flags, width, precision,
argument index, other verbs): from the template after the percent sign, the
operands and the operand state it gives the text written, the number of
template characters used after the percent sign and the new operand state. -/
structure Fmt where
  printArg : Value → Char → List Char
  complex : List Char → List Value → PState → List Char × Nat × PState

/-- Go `(*pp).printArg` without flags: the verb v writes the default
representation, s a string, d an int, t a bool; the rest is the library's. -/
def printArg (F : Fmt) (v : Value) (verb : Char) : List Char :=
  if verb = 'v' then v.repr.data
  else match v with
    | Value.str s => if verb = 's' then s.data else F.printArg v verb
    | Value.int i => if verb = 'd' then (toString i).data else F.printArg v verb
    | Value.bool b => if verb = 't' then (Value.bool b).repr.data else F.printArg v verb
    | _ => F.printArg v verb

/-- One directive of `doPrintf`, given the template after the percent sign. -/
def directive (F : Fmt) (a : List Value) (st : PState) :
    List Char → List Char × Nat × PState
  | [] => ("%!(NOVERB)".data, 0, st)
  | c :: rest =>
    if c = '%' then (['%'], 1, st)
    else if 'a' ≤ c ∧ c ≤ 'z' then
      match a.get? st.argNum with
      | some v => (printArg F v c, 1, ⟨st.argNum + 1, st.reordered⟩)
      | none => ("%!".data ++ c :: "(MISSING)".data, 1, st)
    else F.complex (c :: rest) a st

/-- The operands left over at the end of the template, as written after
`%!(EXTRA `: type and value of each, separated by a comma and a space. -/
def extraArgs : List Value → List Char
  | [] => []
  | [v] => if v = Value.nil then "<nil>".data else v.typeName.data ++ '=' :: v.repr.data
  | v :: w :: vs =>
    (if v = Value.nil then "<nil>".data else v.typeName.data ++ '=' :: v.repr.data)
      ++ ", ".data ++ extraArgs (w :: vs)

/-- The loop of `(*pp).doPrintf` over the template.  `skip` counts the
template characters that the last directive has used and that are still to
be passed over. -/
def doPrintf (F : Fmt) (a : List Value) : Nat → PState → List Char → List Char
  | _, st, [] =>
    if !st.reordered && decide (st.argNum < a.length) then
      "%!(EXTRA ".data ++ extraArgs (a.drop st.argNum) ++ [')']
    else []
  | skip + 1, st, _ :: cs => doPrintf F a skip st cs
  | 0, st, c :: cs =>
    if c = '%' then
      let r := directive F a st cs
      r.1 ++ doPrintf F a r.2.1 r.2.2 cs
    else c :: doPrintf F a 0 st cs

/-- Go `fmt.Sprintf(format, a...)`. -/
def Sprintf (F : Fmt) (format : String) (a : List Value) : String :=
  ⟨doPrintf F a 0 ⟨0, false⟩ format.data⟩

/-- The loop of `(*pp).doPrint`: a space is added between two operands when
neither is a string. -/
def doPrint : Bool → Bool → List Value → List Char
  | _, _, [] => []
  | first, prevString, arg :: rest =>
    (if !first && !arg.isString && !prevString then [' '] else [])
      ++ arg.repr.data ++ doPrint false arg.isString rest

/-- Go `fmt.Sprint(a...)`. -/
def Sprint (a : List Value) : String :=
  ⟨doPrint true false a⟩

/-- An instance of the open part of `fmt`, used where an example is
evaluated.  The examples use plain verbs that fit their operands, for which
every instance writes the same text; this one reports a verb that does not
fit its operand in the form of the library's bad-verb text and any other
directive by a fixed marker. -/
def plainFmt : Fmt where
  printArg v verb := "%!".data ++ verb :: '(' :: (v.typeName.data ++ '=' :: v.repr.data) ++ [')']
  complex _ _ st := ("%!(DIRECTIVE)".data, 1, st)

/-! ## Maps and the heap -/

/-- An entry of a `map[string]interface{}`. -/
abbrev Entry := Σ _ : String, Value

/-- A map object: entries with pairwise distinct keys. -/
abbrev GoMap := AList (fun _ : String => Value)

/-- A value of type `map[string]interface{}`: `none` is the nil map, `some a`
the map object at address `a`. -/
abbrev MapRef := Option Nat

/-- The map objects of the program: the addresses below `next` are in use. -/
structure Heap where
  next : Nat
  maps : Nat → GoMap

namespace Heap

/-- The entries a map value stands for; the nil map has none. -/
def deref (h : Heap) : MapRef → GoMap
  | none => ∅
  | some a => h.maps a

/-- A map value of the program refers to a map object in use, or is nil. -/
def valid (h : Heap) : MapRef → Prop
  | none => True
  | some a => a < h.next

instance (h : Heap) (m : MapRef) : Decidable (h.valid m) := by
  cases m with
  | none => exact isTrue trivial
  | some a => exact Nat.decLt a h.next

/-- Creation of a map object by `make(map[string]interface{}, n)`: a new, empty map object at the
next unused address (the size hint `n` only reserves room). -/
def make (h : Heap) : Heap × Nat :=
  (⟨h.next + 1, Function.update h.maps h.next ∅⟩, h.next)

/-- The assignment `m[k] = v` for the map object at address `a`. -/
def mapassign (h : Heap) (a : Nat) (k : String) (v : Value) : Heap :=
  ⟨h.next, Function.update h.maps a ((h.maps a).insert k v)⟩

/-- The loop `for k, v := range src { dst[k] = v }` into the map object at `a`,
visiting the entries of `src` in the order `ord`. -/
def copyInto (h : Heap) (a : Nat) (ord : List Entry) : Heap :=
  ord.foldl (fun h e => h.mapassign a e.1 e.2) h

end Heap

/-- The state of the program: the map objects and the texts handed to the
standard logger so far, oldest first. -/
structure World where
  heap : Heap
  std : List String

/-! ## The standard logger `stdlog` -/

namespace stdlog

/-- Go `(*Logger).Output` of the standard logger: one write of the text `s`. -/
def Output (w : World) (s : String) : World :=
  ⟨w.heap, w.std ++ [s]⟩

/-- Go `stdlog.Printf(format, v...)`. -/
def Printf (F : Fmt) (w : World) (format : String) (v : List Value) : World :=
  Output w (Sprintf F format v)

/-- Go `stdlog.Print(v...)`. -/
def Print (w : World) (v : List Value) : World :=
  Output w (Sprint v)

end stdlog

/-! ## Simple logger -/

/-- The struct `simple`. -/
structure simple where
  fields : MapRef
  deriving DecidableEq

/-- The struct `noop`. -/
structure noop where
  deriving DecidableEq

/-- The interface `Logger` with its two implementations. -/
inductive Logger where
  | simple (b : simple)
  | noop (n : noop)
  deriving DecidableEq

/-- Go `NewSimple`: the field `fields` of `&simple{}` is the nil map. -/
def NewSimple : Logger := Logger.simple ⟨none⟩

/-- Go `(*simple).WithFields`.  `o1` is the order in which `range b.fields`
visits the entries, `o2` the order of `range fields`. -/
def simple.WithFields (b : simple) (w : World) (fields : MapRef) (o1 o2 : List Entry) :
    World × simple :=
  match b.fields with
  | none => (w, ⟨fields⟩)
  | some _ =>
    let r := w.heap.make
    let h1 := r.1.copyInto r.2 o1
    let h2 := h1.copyInto r.2 o2
    (⟨h2, w.std⟩, ⟨some r.2⟩)

/-- The string `s` of `pretty` after the loop over the map, visiting the entries
in the order `ord`. -/
def prettyLoop (F : Fmt) (ord : List Entry) : String :=
  ord.foldl (fun s e => s ++ Sprintf F "%s=%v " [Value.str e.1, e.2]) ""

/-- The slice expression `s[:n]`: a run-time panic when `n` is out of range. -/
def sliceTo (s : String) (n : Int) : Option String :=
  if 0 ≤ n ∧ n ≤ s.length then some (s.take n.toNat) else none

/-- Go `pretty`, the helper for pretty printing of fields. -/
def pretty (F : Fmt) (h : Heap) (m : MapRef) (ord : List Entry) : Option String :=
  if (h.deref m).entries.length < 1 then some ""
  else
    let s := prettyLoop F ord
    sliceTo s ((s.length : Int) - 1)

namespace simple

/-- Go `(*simple).Debug`. -/
def Debug (F : Fmt) (b : simple) (w : World) (msg : List Value) (ord : List Entry) :
    Option World :=
  (pretty F w.heap b.fields ord).map fun p =>
    stdlog.Printf F w "[DEBUG] %s %s" [Value.str (Sprint msg), Value.str p]

/-- Go `(*simple).Info`. -/
def Info (F : Fmt) (b : simple) (w : World) (msg : List Value) (ord : List Entry) :
    Option World :=
  (pretty F w.heap b.fields ord).map fun p =>
    stdlog.Printf F w "[INFO] %s %s" [Value.str (Sprint msg), Value.str p]

/-- Go `(*simple).Warn`. -/
def Warn (F : Fmt) (b : simple) (w : World) (msg : List Value) (ord : List Entry) :
    Option World :=
  (pretty F w.heap b.fields ord).map fun p =>
    stdlog.Printf F w "[WARN] %s %s" [Value.str (Sprint msg), Value.str p]

/-- Go `(*simple).Error`. -/
def Error (F : Fmt) (b : simple) (w : World) (msg : List Value) (ord : List Entry) :
    Option World :=
  (pretty F w.heap b.fields ord).map fun p =>
    stdlog.Printf F w "[ERROR] %s %s" [Value.str (Sprint msg), Value.str p]

/-- Go `(*simple).Debugf`. -/
def Debugf (F : Fmt) (b : simple) (w : World) (format : String) (args : List Value)
    (ord : List Entry) : Option World :=
  (pretty F w.heap b.fields ord).map fun p =>
    stdlog.Print w [Value.str (Sprintf F ("[DEBUG] " ++ format) args), Value.str " ", Value.str p]

/-- Go `(*simple).Infof`. -/
def Infof (F : Fmt) (b : simple) (w : World) (format : String) (args : List Value)
    (ord : List Entry) : Option World :=
  (pretty F w.heap b.fields ord).map fun p =>
    stdlog.Print w [Value.str (Sprintf F ("[INFO] " ++ format) args), Value.str " ", Value.str p]

/-- Go `(*simple).Warnf`. -/
def Warnf (F : Fmt) (b : simple) (w : World) (format : String) (args : List Value)
    (ord : List Entry) : Option World :=
  (pretty F w.heap b.fields ord).map fun p =>
    stdlog.Print w [Value.str (Sprintf F ("[WARN] " ++ format) args), Value.str " ", Value.str p]

/-- Go `(*simple).Errorf`. -/
def Errorf (F : Fmt) (b : simple) (w : World) (format : String) (args : List Value)
    (ord : List Entry) : Option World :=
  (pretty F w.heap b.fields ord).map fun p =>
    stdlog.Print w [Value.str (Sprintf F ("[ERROR] " ++ format) args), Value.str " ", Value.str p]

end simple

/-! ## No-op logger -/

/-- Go `NewNoop`. -/
def NewNoop : Logger := Logger.noop ⟨⟩

namespace noop

/-- Go `(*noop).Debug`: the body is empty. -/
def Debug (_n : noop) (w : World) (_msg : List Value) : World := w

/-- Go `(*noop).Info`: the body is empty. -/
def Info (_n : noop) (w : World) (_msg : List Value) : World := w

/-- Go `(*noop).Warn`: the body is empty. -/
def Warn (_n : noop) (w : World) (_msg : List Value) : World := w

/-- Go `(*noop).Error`: the body is empty. -/
def Error (_n : noop) (w : World) (_msg : List Value) : World := w

/-- Go `(*noop).Debugf`: the body is empty. -/
def Debugf (_n : noop) (w : World) (_format : String) (_args : List Value) : World := w

/-- Go `(*noop).Infof`: the body is empty. -/
def Infof (_n : noop) (w : World) (_format : String) (_args : List Value) : World := w

/-- Go `(*noop).Warnf`: the body is empty. -/
def Warnf (_n : noop) (w : World) (_format : String) (_args : List Value) : World := w

/-- Go `(*noop).Errorf`: the body is empty. -/
def Errorf (_n : noop) (w : World) (_format : String) (_args : List Value) : World := w

/-- Go `(*noop).WithFields`: `return n`. -/
def WithFields (n : noop) (w : World) (_fields : MapRef) : World × noop := (w, n)

end noop

namespace Logger

/-- Go `Debug` called through the interface. -/
def Debug (F : Fmt) (l : Logger) (w : World) (msg : List Value) (ord : List Entry) :
    Option World :=
  match l with
  | simple b => b.Debug F w msg ord
  | noop n => some (n.Debug w msg)

/-- Go `Info` called through the interface. -/
def Info (F : Fmt) (l : Logger) (w : World) (msg : List Value) (ord : List Entry) :
    Option World :=
  match l with
  | simple b => b.Info F w msg ord
  | noop n => some (n.Info w msg)

/-- Go `Warn` called through the interface. -/
def Warn (F : Fmt) (l : Logger) (w : World) (msg : List Value) (ord : List Entry) :
    Option World :=
  match l with
  | simple b => b.Warn F w msg ord
  | noop n => some (n.Warn w msg)

/-- Go `Error` called through the interface. -/
def Error (F : Fmt) (l : Logger) (w : World) (msg : List Value) (ord : List Entry) :
    Option World :=
  match l with
  | simple b => b.Error F w msg ord
  | noop n => some (n.Error w msg)

/-- Go `Debugf` called through the interface. -/
def Debugf (F : Fmt) (l : Logger) (w : World) (format : String) (args : List Value)
    (ord : List Entry) : Option World :=
  match l with
  | simple b => b.Debugf F w format args ord
  | noop n => some (n.Debugf w format args)

/-- Go `Infof` called through the interface. -/
def Infof (F : Fmt) (l : Logger) (w : World) (format : String) (args : List Value)
    (ord : List Entry) : Option World :=
  match l with
  | simple b => b.Infof F w format args ord
  | noop n => some (n.Infof w format args)

/-- Go `Warnf` called through the interface. -/
def Warnf (F : Fmt) (l : Logger) (w : World) (format : String) (args : List Value)
    (ord : List Entry) : Option World :=
  match l with
  | simple b => b.Warnf F w format args ord
  | noop n => some (n.Warnf w format args)

/-- Go `Errorf` called through the interface. -/
def Errorf (F : Fmt) (l : Logger) (w : World) (format : String) (args : List Value)
    (ord : List Entry) : Option World :=
  match l with
  | simple b => b.Errorf F w format args ord
  | noop n => some (n.Errorf w format args)

/-- Go `WithFields` called through the interface. -/
def WithFields (l : Logger) (w : World) (fields : MapRef) (o1 o2 : List Entry) :
    World × Logger :=
  match l with
  | simple b => ((b.WithFields w fields o1 o2).1, simple (b.WithFields w fields o1 o2).2)
  | noop n => ((n.WithFields w fields).1, noop (n.WithFields w fields).2)

end Logger

/-! ## Map literals and the states of the examples -/

/-- A map literal `map[string]interface{}{k1: v1, ...}` as a map object. -/
def mapLit (kvs : List (String × Value)) : GoMap :=
  kvs.foldl (fun m kv => m.insert kv.1 kv.2) ∅

/-- The heap that holds the map objects `ms` at the addresses `0, 1, ...`. -/
def heapOf (ms : List GoMap) : Heap :=
  ⟨ms.length, fun a => ms.getD a ∅⟩

/-- The state in which the caller has created the map objects `ms` and nothing
has been logged yet. -/
def worldOf (ms : List GoMap) : World :=
  ⟨heapOf ms, []⟩

/-- The field context of a simple logger in a state. -/
def simple.context (b : simple) (w : World) : GoMap :=
  w.heap.deref b.fields

/-- The state of the test "appends to preexisting fields": the caller's two
maps, at the addresses 0 and 1. -/
def appendWorld : World :=
  worldOf [mapLit [("foo", Value.str "oldval"), ("baz", Value.str "origval")],
    mapLit [("foo", Value.str "newval"), ("biz", Value.str "buzz")]]

/-- The second derivation of the test "appends to preexisting fields": the
logger that holds the first map derives with the second map. -/
def appendDerived : World × simple :=
  (⟨some 0⟩ : simple).WithFields appendWorld (some 1)
    (appendWorld.heap.deref (some 0)).entries (appendWorld.heap.deref (some 1)).entries

/-- The state of the test "creates a copy": the caller's two maps, at the
addresses 0 and 1. -/
def copyWorld : World :=
  worldOf [mapLit [("foo", Value.str "bar"), ("baz", Value.int 2)],
    mapLit [("biz", Value.str "bar"), ("buz", Value.int 2)]]

/-- The state in which no map has been created and nothing has been logged. -/
def emptyWorld : World :=
  worldOf []

/-- A state with one map of the caller, at the address 0. -/
def callerWorld : World :=
  worldOf [mapLit [("foo", Value.str "bar")]]

/-- A state with one map of the caller, at the address 0, in which one text
has been handed to the standard logger. -/
def loggedWorld : World :=
  ⟨callerWorld.heap, ["[INFO] started "]⟩

/-- A state with one map of the caller, at the address 0, whose only key is
the empty string and whose only value is the empty string. -/
def edgeWorld : World :=
  worldOf [mapLit [("", Value.str "")]]

/-- The first supplied map of the example of composition. -/
def composeF : GoMap :=
  mapLit [("foo", Value.str "newval"), ("biz", Value.str "buzz")]

/-- The second supplied map of the example of composition. -/
def composeG : GoMap :=
  mapLit [("biz", Value.str "last"), ("buz", Value.int 2)]

/-- The state of the example of composition: at the address 0 the map of the
receiver, at 1 and 2 the two supplied maps, at 3 the second merged over the
first, at 4 a map without entries. -/
def composeWorld : World :=
  worldOf [mapLit [("foo", Value.str "oldval"), ("baz", Value.str "origval")],
    composeF, composeG, composeG ∪ composeF, mapLit []]

/-- The example of composition: the logger with the map at 0 derives with the
first supplied map. -/
def composeB : World × simple :=
  (⟨some 0⟩ : simple).WithFields composeWorld (some 1)
    (composeWorld.heap.deref (some 0)).entries (composeWorld.heap.deref (some 1)).entries

/-- The example of composition: the logger of `composeB` derives with the
second supplied map. -/
def composeC : World × simple :=
  composeB.2.WithFields composeB.1 (some 2)
    (composeB.2.context composeB.1).entries (composeB.1.heap.deref (some 2)).entries

/-- The example of composition: the logger with the map at 0 derives with the
merged map. -/
def composeD : World × simple :=
  (⟨some 0⟩ : simple).WithFields composeWorld (some 3)
    (composeWorld.heap.deref (some 0)).entries (composeWorld.heap.deref (some 3)).entries

/-- The example of composition: the logger with the map at 0 derives with the
map without entries. -/
def composeE : World × simple :=
  (⟨some 0⟩ : simple).WithFields composeWorld (some 4)
    (composeWorld.heap.deref (some 0)).entries (composeWorld.heap.deref (some 4)).entries

/-- The example of composition: the logger of `composeB` derives with the first
supplied map once more. -/
def composeT : World × simple :=
  composeB.2.WithFields composeB.1 (some 1)
    (composeB.2.context composeB.1).entries (composeB.1.heap.deref (some 1)).entries

/-- A state with one map of the caller, at the address 0, whose only value is a
string that ends with a space. -/
def spaceWorld : World :=
  worldOf [mapLit [("k", Value.str "v ")]]

/-- A finite chain of `WithFields` calls through the interface: every element
gives the supplied map and the two visiting orders of one call. -/
def deriveChain (l : Logger) (w : World) :
    List (MapRef × List Entry × List Entry) → World × Logger
  | [] => (w, l)
  | c :: cs =>
    deriveChain (l.WithFields w c.1 c.2.1 c.2.2).2 (l.WithFields w c.1 c.2.1 c.2.2).1 cs

/-! ## The rendering of a field context, as the specification words it -/

/-- One pair `key=value`, the value in its default representation. -/
def pairText (e : Entry) : String :=
  e.1 ++ "=" ++ e.2.repr

/-- The pairs of the entries `es`, in this order, joined by exactly one space:
nothing stands before the first pair or after the last one. -/
def joinPairs : List Entry → String
  | [] => ""
  | [e] => pairText e
  | e :: e' :: es => pairText e ++ " " ++ joinPairs (e' :: es)

/-- The operands `vs` in their default representations, in this order, with
exactly one space between two neighbours when neither is a string and with
nothing between them otherwise. -/
def joinOperands : List Value → String
  | [] => ""
  | [v] => v.repr
  | v :: v' :: vs =>
    v.repr ++ (if !v.isString && !v'.isString then " " else "") ++ joinOperands (v' :: vs)

/-- The operands `vs` in their default representations, in this order, with
nothing between them. -/
def concatOperands : List Value → String
  | [] => ""
  | v :: vs => v.repr ++ concatOperands vs

/-- The text `t` occurs in the text `s`. -/
def occursIn (t s : String) : Prop :=
  t.data <:+: s.data

instance (t s : String) : Decidable (occursIn t s) :=
  inferInstanceAs (Decidable (t.data <:+: s.data))

/-- The text `s` starts with the text `t`. -/
def startsWith (s t : String) : Prop :=
  t.data <+: s.data

instance (s t : String) : Decidable (startsWith s t) :=
  inferInstanceAs (Decidable (t.data <+: s.data))

/-- The text `s` ends with the text `t`. -/
def endsWith (s t : String) : Prop :=
  t.data <:+ s.data

instance (s t : String) : Decidable (endsWith s t) :=
  inferInstanceAs (Decidable (t.data <:+ s.data))

/-! ## Facts about the formatting library -/

/-- Template text without a percent sign is copied as it is, and the
directives after it see the operand state they would see without it. -/
theorem doPrintf_literal (F : Fmt) (a : List Value) (st : PState) (p t : List Char)
    (hp : '%' ∉ p) : doPrintf F a 0 st (p ++ t) = p ++ doPrintf F a 0 st t := by
  induction p with
  | nil => rfl
  | cons c cs ih =>
    have hc : c ≠ '%' := fun h => hp (by simp [h])
    have hcs : '%' ∉ cs := fun h => hp (by simp [h])
    simp [doPrintf, hc, ih hcs]

/-- Fact: `Sprintf` of a template that starts with text free of percent signs. -/
theorem Sprintf_literal (F : Fmt) (p t : String) (a : List Value) (hp : '%' ∉ p.data) :
    Sprintf F (p ++ t) a = p ++ Sprintf F t a := by
  apply String.ext
  simp [Sprintf, doPrintf_literal F a _ p.data t.data hp]

/-- The template of `pretty` applied to a key and a value. -/
theorem Sprintf_pair (F : Fmt) (k : String) (v : Value) :
    Sprintf F "%s=%v " [Value.str k, v] = k ++ "=" ++ v.repr ++ " " := by
  apply String.ext
  simp [Sprintf, doPrintf, directive, printArg]

/-- A template `tag %s %s` applied to two strings, for a tag free of percent signs. -/
theorem Sprintf_two_strings (F : Fmt) (tag x y : String) (hp : '%' ∉ tag.data) :
    Sprintf F (tag ++ "%s %s") [Value.str x, Value.str y] = tag ++ x ++ " " ++ y := by
  rw [Sprintf_literal F tag _ _ hp]
  apply String.ext
  simp [Sprintf, doPrintf, directive, printArg]

/-- Fact: `Sprint` of three strings joins them without a separator. -/
theorem Sprint_three_strings (x y z : String) :
    Sprint [Value.str x, Value.str y, Value.str z] = x ++ y ++ z := by
  apply String.ext
  simp [Sprint, doPrint, Value.isString, Value.repr]

/-- Fact: `Sprint` puts a space between two neighbours exactly when neither is a string. -/
theorem Sprint_eq_joinOperands (vs : List Value) : Sprint vs = joinOperands vs := by
  have key : ∀ (vs : List Value) (v : Value),
      (joinOperands (v :: vs)).data = v.repr.data ++ doPrint false v.isString vs := by
    intro vs
    induction vs with
    | nil => intro v; simp [joinOperands, doPrint]
    | cons v' vs ih =>
      intro v
      simp only [joinOperands, String.data_append, ih v', doPrint]
      cases v.isString <;> cases v'.isString <;> simp
  apply String.ext
  cases vs with
  | nil => rfl
  | cons v vs => simp [Sprint, doPrint, key]

/-- Without two neighbours that are both not strings, `Sprint` joins the
representations with nothing between them. -/
theorem joinOperands_eq_concat (vs : List Value)
    (h : List.Chain' (fun v v' => v.isString = true ∨ v'.isString = true) vs) :
    joinOperands vs = concatOperands vs := by
  induction vs with
  | nil => rfl
  | cons v vs ih =>
    cases vs with
    | nil => simp [joinOperands, concatOperands]
    | cons v' vs =>
      have hc := List.chain'_cons.1 h
      have ih' := ih hc.2
      have hsep : (if (!v.isString && !v'.isString) = true then " " else "") = "" := by
        rcases hc.1 with h1 | h1 <;> simp [h1]
      simp only [joinOperands, hsep, ih']
      apply String.ext
      simp [concatOperands]

/-! ## Facts about `pretty` -/

theorem foldl_append_eq (f : Entry → String) (init : String) (es : List Entry) :
    es.foldl (fun s e => s ++ f e) init = init ++ es.foldl (fun s e => s ++ f e) "" := by
  induction es generalizing init with
  | nil => simp
  | cons e es ih =>
    simp only [List.foldl_cons]
    rw [ih (init ++ f e), ih ("" ++ f e)]
    simp [String.append_assoc]

/-- The loop of `pretty` writes every pair followed by one space. -/
theorem prettyLoop_cons (F : Fmt) (e : Entry) (es : List Entry) :
    prettyLoop F (e :: es) = pairText e ++ " " ++ prettyLoop F es := by
  unfold prettyLoop
  simp only [List.foldl_cons]
  rw [foldl_append_eq, Sprintf_pair]
  simp [pairText]

/-- After the loop over at least one entry, `s` is the joined pairs and one more space. -/
theorem prettyLoop_eq (F : Fmt) (e : Entry) (es : List Entry) :
    prettyLoop F (e :: es) = joinPairs (e :: es) ++ " " := by
  induction es generalizing e with
  | nil =>
    rw [prettyLoop_cons]
    apply String.ext
    simp [prettyLoop, joinPairs]
  | cons e' es ih =>
    rw [prettyLoop_cons, ih e']
    simp [joinPairs, String.append_assoc]

/-- Cutting the last character off `x` followed by one space gives `x`: the
slice is in range. -/
theorem sliceTo_append_space (x : String) :
    sliceTo (x ++ " ") (((x ++ " ").length : Int) - 1) = some x := by
  have hl : (x ++ " ").length = x.length + 1 := by
    rw [String.length_append]; rfl
  have hn : (((x ++ " ").length : Int) - 1) = (x.length : Int) := by rw [hl]; push_cast; ring
  rw [hn]
  unfold sliceTo
  have hcond : (0 : Int) ≤ (x.length : Int) ∧ (x.length : Int) ≤ ((x ++ " ").length : Int) := by
    rw [hl]; constructor <;> omega
  rw [if_pos hcond]
  congr 1
  apply String.ext
  rw [Int.toNat_ofNat, String.data_take, String.data_append]
  exact List.take_left' rfl

/-- The joined pairs end with the pair of the last entry. -/
theorem joinPairs_endsWith (ord : List Entry) (e : Entry) (hl : ord.getLast? = some e) :
    endsWith (joinPairs ord) (pairText e) := by
  unfold endsWith
  induction ord with
  | nil => simp at hl
  | cons e0 es ih =>
    cases es with
    | nil =>
      simp only [List.getLast?_singleton, Option.some.injEq] at hl
      subst hl
      exact List.suffix_refl _
    | cons e1 es =>
      rw [List.getLast?_cons_cons] at hl
      simp only [joinPairs, String.data_append]
      exact (ih hl).trans (List.suffix_append _ _)

/-- When the runtime visits the entries of the map in the order `ord`, `pretty`
returns the pairs in that order joined by single spaces. -/
theorem pretty_eq (F : Fmt) (h : Heap) (m : MapRef) (ord : List Entry)
    (hord : ord.Perm (h.deref m).entries) : pretty F h m ord = some (joinPairs ord) := by
  unfold pretty
  cases ord with
  | nil =>
    have : (h.deref m).entries.length = 0 := by simpa using hord.length_eq.symm
    simp [this, joinPairs]
  | cons e es =>
    have : (h.deref m).entries.length = es.length + 1 := by simpa using hord.length_eq.symm
    have hlt : ¬ (h.deref m).entries.length < 1 := by omega
    rw [if_neg hlt]
    simp only [prettyLoop_eq]
    exact sliceTo_append_space _

/-! ## Facts about the heap -/

theorem copyInto_next (h : Heap) (a : Nat) (ord : List Entry) :
    (h.copyInto a ord).next = h.next := by
  unfold Heap.copyInto
  induction ord generalizing h with
  | nil => rfl
  | cons e es ih => simp only [List.foldl_cons]; rw [ih]; rfl

/-- The copy loop writes to the map object at `a` only. -/
theorem copyInto_maps_ne (h : Heap) (a a' : Nat) (ord : List Entry) (hne : a' ≠ a) :
    (h.copyInto a ord).maps a' = h.maps a' := by
  unfold Heap.copyInto
  induction ord generalizing h with
  | nil => rfl
  | cons e es ih =>
    simp only [List.foldl_cons]; rw [ih]
    simp [Heap.mapassign, Function.update_noteq hne]

/-- After the copy loop a key has the value of its last assignment, or else
the value it had before. -/
theorem copyInto_lookup (h : Heap) (a : Nat) (ord : List Entry) (k : String) :
    ((h.copyInto a ord).maps a).lookup k
      = (List.dlookup k ord.reverse).or ((h.maps a).lookup k) := by
  unfold Heap.copyInto
  induction ord generalizing h with
  | nil => simp
  | cons e es ih =>
    simp only [List.foldl_cons]; rw [ih]
    simp only [List.reverse_cons, List.dlookup_append, Heap.mapassign, Function.update_same]
    by_cases hk : k = e.1
    · subst hk
      obtain ⟨k, v⟩ := e
      cases List.dlookup k es.reverse <;> simp [AList.lookup_insert]
    · have hk' : e.1 ≠ k := fun h => hk h.symm
      cases List.dlookup k es.reverse <;>
        simp [AList.lookup_insert_ne hk, List.dlookup_cons_ne _ e hk]

/-- A visiting order of a map object finds for every key the value the map holds. -/
theorem dlookup_reverse_of_perm (m : GoMap) (ord : List Entry) (k : String)
    (hord : ord.Perm m.entries) : List.dlookup k ord.reverse = m.lookup k := by
  have hp : ord.reverse.Perm m.entries := (List.reverse_perm ord).trans hord
  have hnd : ord.reverse.NodupKeys := (List.perm_nodupKeys hp).2 m.nodupKeys
  exact List.perm_dlookup k hnd m.nodupKeys hp

/-- A map value that is valid in `h` stands for the same entries in every heap
that agrees with `h` on the addresses in use. -/
theorem deref_of_agree (h h' : Heap) (m : MapRef) (hm : h.valid m)
    (hag : ∀ a, a < h.next → h'.maps a = h.maps a) : h'.deref m = h.deref m := by
  cases m with
  | none => rfl
  | some a => exact hag a hm

/-! ## Facts about `WithFields` -/

/-- Fact: `WithFields` hands nothing to the standard logger. -/
theorem WithFields_std (b : simple) (w : World) (fields : MapRef) (o1 o2 : List Entry) :
    (b.WithFields w fields o1 o2).1.std = w.std := by
  unfold simple.WithFields
  cases b.fields <;> rfl

/-- Fact: `WithFields` leaves every map object that is in use as it is. -/
theorem WithFields_agree (b : simple) (w : World) (fields : MapRef) (o1 o2 : List Entry)
    (a : Nat) (ha : a < w.heap.next) :
    (b.WithFields w fields o1 o2).1.heap.maps a = w.heap.maps a := by
  unfold simple.WithFields
  cases b.fields with
  | none => rfl
  | some _ =>
    have hne : a ≠ w.heap.next := Nat.ne_of_lt ha
    simp [copyInto_maps_ne _ _ _ _ hne, Heap.make, Function.update_noteq hne]

/-- Fact: `WithFields` never frees an address. -/
theorem WithFields_next_le (b : simple) (w : World) (fields : MapRef) (o1 o2 : List Entry) :
    w.heap.next ≤ (b.WithFields w fields o1 o2).1.heap.next := by
  unfold simple.WithFields
  cases b.fields with
  | none => exact Nat.le_refl _
  | some _ => simp [copyInto_next, Heap.make]

/-- The map value of the logger that `WithFields` returns is valid. -/
theorem WithFields_valid (b : simple) (w : World) (fields : MapRef) (o1 o2 : List Entry)
    (hf : w.heap.valid fields) :
    (b.WithFields w fields o1 o2).1.heap.valid (b.WithFields w fields o1 o2).2.fields := by
  unfold simple.WithFields
  cases b.fields with
  | none => exact hf
  | some _ => simp [Heap.valid, copyInto_next, Heap.make]

/-- The field context of the logger that `WithFields` returns: a key has the
value of the supplied map, or else the value of the receiver. -/
theorem WithFields_lookup (b : simple) (w : World) (fields : MapRef) (o1 o2 : List Entry)
    (h1 : o1.Perm (w.heap.deref b.fields).entries)
    (h2 : o2.Perm (w.heap.deref fields).entries) (k : String) :
    ((b.WithFields w fields o1 o2).2.context (b.WithFields w fields o1 o2).1).lookup k
      = ((w.heap.deref fields).lookup k).or ((w.heap.deref b.fields).lookup k) := by
  unfold simple.WithFields simple.context
  cases hb : b.fields with
  | none =>
    cases (w.heap.deref fields).lookup k <;> simp [Heap.deref]
  | some a0 =>
    rw [hb] at h1
    simp only [Heap.deref]
    rw [copyInto_lookup, copyInto_lookup, dlookup_reverse_of_perm _ _ _ h2,
      dlookup_reverse_of_perm _ _ _ h1]
    simp [Heap.make, Heap.deref]

/-- Membership of a key in a map that is given by its lookups. -/
theorem mem_of_lookup_or (R F G : GoMap) (k : String)
    (h : R.lookup k = (G.lookup k).or (F.lookup k)) : k ∈ R ↔ k ∈ F ∨ k ∈ G := by
  rw [← AList.lookup_isSome, ← AList.lookup_isSome, ← AList.lookup_isSome, h]
  cases G.lookup k <;> cases F.lookup k <;> simp

/-! ## Facts about the emitters -/

/-- The text that `Debug` hands to the standard logger. -/
theorem Debug_eq (F : Fmt) (b : simple) (w : World) (msg : List Value) (ord : List Entry)
    (hord : ord.Perm (b.context w).entries) :
    b.Debug F w msg ord
      = some ⟨w.heap, w.std ++ ["[DEBUG] " ++ Sprint msg ++ " " ++ joinPairs ord]⟩ := by
  unfold simple.Debug
  rw [pretty_eq F _ _ _ hord]
  simp only [Option.map_some', stdlog.Printf, stdlog.Output]
  rw [show "[DEBUG] %s %s" = "[DEBUG] " ++ "%s %s" from by decide,
    Sprintf_two_strings F _ _ _ (by decide)]

/-- The text that `Info` hands to the standard logger. -/
theorem Info_eq (F : Fmt) (b : simple) (w : World) (msg : List Value) (ord : List Entry)
    (hord : ord.Perm (b.context w).entries) :
    b.Info F w msg ord
      = some ⟨w.heap, w.std ++ ["[INFO] " ++ Sprint msg ++ " " ++ joinPairs ord]⟩ := by
  unfold simple.Info
  rw [pretty_eq F _ _ _ hord]
  simp only [Option.map_some', stdlog.Printf, stdlog.Output]
  rw [show "[INFO] %s %s" = "[INFO] " ++ "%s %s" from by decide,
    Sprintf_two_strings F _ _ _ (by decide)]

/-- The text that `Warn` hands to the standard logger. -/
theorem Warn_eq (F : Fmt) (b : simple) (w : World) (msg : List Value) (ord : List Entry)
    (hord : ord.Perm (b.context w).entries) :
    b.Warn F w msg ord
      = some ⟨w.heap, w.std ++ ["[WARN] " ++ Sprint msg ++ " " ++ joinPairs ord]⟩ := by
  unfold simple.Warn
  rw [pretty_eq F _ _ _ hord]
  simp only [Option.map_some', stdlog.Printf, stdlog.Output]
  rw [show "[WARN] %s %s" = "[WARN] " ++ "%s %s" from by decide,
    Sprintf_two_strings F _ _ _ (by decide)]

/-- The text that `Error` hands to the standard logger. -/
theorem Error_eq (F : Fmt) (b : simple) (w : World) (msg : List Value) (ord : List Entry)
    (hord : ord.Perm (b.context w).entries) :
    b.Error F w msg ord
      = some ⟨w.heap, w.std ++ ["[ERROR] " ++ Sprint msg ++ " " ++ joinPairs ord]⟩ := by
  unfold simple.Error
  rw [pretty_eq F _ _ _ hord]
  simp only [Option.map_some', stdlog.Printf, stdlog.Output]
  rw [show "[ERROR] %s %s" = "[ERROR] " ++ "%s %s" from by decide,
    Sprintf_two_strings F _ _ _ (by decide)]

/-- The text that `Debugf` hands to the standard logger. -/
theorem Debugf_eq (F : Fmt) (b : simple) (w : World) (format : String) (args : List Value)
    (ord : List Entry) (hord : ord.Perm (b.context w).entries) :
    b.Debugf F w format args ord
      = some ⟨w.heap, w.std ++ ["[DEBUG] " ++ Sprintf F format args ++ " " ++ joinPairs ord]⟩ := by
  unfold simple.Debugf
  rw [pretty_eq F _ _ _ hord]
  simp only [Option.map_some', stdlog.Print, stdlog.Output]
  rw [Sprint_three_strings, Sprintf_literal F _ _ _ (by decide)]

/-- The text that `Infof` hands to the standard logger. -/
theorem Infof_eq (F : Fmt) (b : simple) (w : World) (format : String) (args : List Value)
    (ord : List Entry) (hord : ord.Perm (b.context w).entries) :
    b.Infof F w format args ord
      = some ⟨w.heap, w.std ++ ["[INFO] " ++ Sprintf F format args ++ " " ++ joinPairs ord]⟩ := by
  unfold simple.Infof
  rw [pretty_eq F _ _ _ hord]
  simp only [Option.map_some', stdlog.Print, stdlog.Output]
  rw [Sprint_three_strings, Sprintf_literal F _ _ _ (by decide)]

/-- The text that `Warnf` hands to the standard logger. -/
theorem Warnf_eq (F : Fmt) (b : simple) (w : World) (format : String) (args : List Value)
    (ord : List Entry) (hord : ord.Perm (b.context w).entries) :
    b.Warnf F w format args ord
      = some ⟨w.heap, w.std ++ ["[WARN] " ++ Sprintf F format args ++ " " ++ joinPairs ord]⟩ := by
  unfold simple.Warnf
  rw [pretty_eq F _ _ _ hord]
  simp only [Option.map_some', stdlog.Print, stdlog.Output]
  rw [Sprint_three_strings, Sprintf_literal F _ _ _ (by decide)]

/-- The text that `Errorf` hands to the standard logger. -/
theorem Errorf_eq (F : Fmt) (b : simple) (w : World) (format : String) (args : List Value)
    (ord : List Entry) (hord : ord.Perm (b.context w).entries) :
    b.Errorf F w format args ord
      = some ⟨w.heap, w.std ++ ["[ERROR] " ++ Sprintf F format args ++ " " ++ joinPairs ord]⟩ := by
  unfold simple.Errorf
  rw [pretty_eq F _ _ _ hord]
  simp only [Option.map_some', stdlog.Print, stdlog.Output]
  rw [Sprint_three_strings, Sprintf_literal F _ _ _ (by decide)]

/-- A visiting order of a map without entries visits nothing. -/
theorem joinPairs_of_empty (m : GoMap) (ord : List Entry) (hm : m.entries = [])
    (hord : ord.Perm m.entries) : joinPairs ord = "" := by
  rw [hm] at hord
  rw [List.Perm.eq_nil hord]
  rfl

theorem startsWith_append (s t : String) : startsWith (s ++ t) s := by
  unfold startsWith
  rw [String.data_append]
  exact List.prefix_append _ _

/-- A text made of a tag, a body, a space and a rest starts with the tag and the body. -/
theorem startsWith_tag_body (tag body rest : String) :
    startsWith (tag ++ body ++ " " ++ rest) (tag ++ body) := by
  rw [String.append_assoc (tag ++ body)]
  exact startsWith_append _ _

/-! ## The claims -/

/-- C1: for every simple logger and every supplied map, the field context of
the logger returned by `WithFields` is the union of the receiver's context
and the supplied map, the supplied map winning: a key is in it exactly when
it is in one of the two, a key of the supplied map has the supplied value,
and a key that is not in the supplied map has the receiver's value.  The
receiver may be a root logger, whose map is nil. -/
theorem WithFields_union (b : simple) (w : World) (fields : MapRef) (o1 o2 : List Entry)
    (h1 : o1.Perm (b.context w).entries) (h2 : o2.Perm (w.heap.deref fields).entries) :
    (∀ k, k ∈ (b.WithFields w fields o1 o2).2.context (b.WithFields w fields o1 o2).1
        ↔ k ∈ b.context w ∨ k ∈ w.heap.deref fields) ∧
    (∀ k v, (w.heap.deref fields).lookup k = some v →
        ((b.WithFields w fields o1 o2).2.context (b.WithFields w fields o1 o2).1).lookup k
          = some v) ∧
    (∀ k, k ∉ w.heap.deref fields →
        ((b.WithFields w fields o1 o2).2.context (b.WithFields w fields o1 o2).1).lookup k
          = (b.context w).lookup k) := by
  have hl := WithFields_lookup b w fields o1 o2 h1 h2
  refine ⟨fun k => mem_of_lookup_or _ _ _ k (hl k), fun k v hv => ?_, fun k hk => ?_⟩
  · rw [hl k, hv]; rfl
  · rw [hl k, AList.lookup_eq_none.2 hk]; rfl

/-- C1 at the maps of the test: the logger with `foo: oldval, baz: origval`
derives with `foo: newval, biz: buzz`; the result holds `foo: newval`,
`baz: origval` and `biz: buzz`. -/
theorem WithFields_union_witness :
    ((∀ k, k ∈ appendDerived.2.context appendDerived.1
        ↔ k ∈ (⟨some 0⟩ : simple).context appendWorld ∨ k ∈ appendWorld.heap.deref (some 1)) ∧
      (∀ k v, (appendWorld.heap.deref (some 1)).lookup k = some v →
        (appendDerived.2.context appendDerived.1).lookup k = some v) ∧
      (∀ k, k ∉ appendWorld.heap.deref (some 1) →
        (appendDerived.2.context appendDerived.1).lookup k
          = ((⟨some 0⟩ : simple).context appendWorld).lookup k)) ∧
    (appendDerived.2.context appendDerived.1).entries
      = [⟨"foo", Value.str "newval"⟩, ⟨"biz", Value.str "buzz"⟩, ⟨"baz", Value.str "origval"⟩] :=
  ⟨WithFields_union ⟨some 0⟩ appendWorld (some 1) (appendWorld.heap.deref (some 0)).entries
      (appendWorld.heap.deref (some 1)).entries (List.Perm.refl _) (List.Perm.refl _),
    by decide⟩

/-- The keys that a visiting order of a map visits are the keys of the map. -/
theorem mem_keys_of_perm (m : GoMap) (ord : List Entry) (k : String)
    (hord : ord.Perm m.entries) : k ∈ ord.keys ↔ k ∈ m := by
  rw [AList.mem_keys]
  exact (hord.map Sigma.fst).mem_iff

/-- C2: `WithFields` never mutates the receiver.  Let `B` be derived from the
simple logger `A` with the map `f`, and then `C` from `A` with the map `g`.
The field context of `A` after the first call is the one before it; the
context of `C` is the context of `A` merged with `g`; whatever order the
runtime visits the entries in, the rendering of `C` is the join of pairs
none of which has a key that is only in `f`, and the rendering of `B`, taken
after both calls, is the join of pairs none of which has a key that is only
in `g`. -/
theorem WithFields_receiver_unchanged (F : Fmt) (A B C : simple) (w w1 w2 : World)
    (f g : MapRef) (of1 of2 og1 og2 : List Entry)
    (hA : w.heap.valid A.fields) (hf : w.heap.valid f) (hg : w.heap.valid g)
    (hB : A.WithFields w f of1 of2 = (w1, B)) (hC : A.WithFields w1 g og1 og2 = (w2, C))
    (hf1 : of1.Perm (A.context w).entries) (hf2 : of2.Perm (w.heap.deref f).entries)
    (hg1 : og1.Perm (A.context w1).entries) (hg2 : og2.Perm (w1.heap.deref g).entries) :
    A.context w1 = A.context w ∧
    (∀ k, (C.context w2).lookup k
        = ((w.heap.deref g).lookup k).or ((A.context w).lookup k)) ∧
    (∀ ord : List Entry, ord.Perm (C.context w2).entries →
        pretty F w2.heap C.fields ord = some (joinPairs ord) ∧
        ∀ k, k ∈ w.heap.deref f → k ∉ A.context w → k ∉ w.heap.deref g → k ∉ ord.keys) ∧
    (∀ ord : List Entry, ord.Perm (B.context w2).entries →
        pretty F w2.heap B.fields ord = some (joinPairs ord) ∧
        ∀ k, k ∈ w.heap.deref g → k ∉ A.context w → k ∉ w.heap.deref f → k ∉ ord.keys) := by
  have e1 : w1 = (A.WithFields w f of1 of2).1 := by rw [hB]
  have eB : B = (A.WithFields w f of1 of2).2 := by rw [hB]
  have e2 : w2 = (A.WithFields w1 g og1 og2).1 := by rw [hC]
  have eC : C = (A.WithFields w1 g og1 og2).2 := by rw [hC]
  have ag1 : ∀ a, a < w.heap.next → w1.heap.maps a = w.heap.maps a := fun a ha => by
    rw [e1]; exact WithFields_agree A w f of1 of2 a ha
  have ag2 : ∀ a, a < w1.heap.next → w2.heap.maps a = w1.heap.maps a := fun a ha => by
    rw [e2]; exact WithFields_agree A w1 g og1 og2 a ha
  have hA1 : A.context w1 = A.context w := deref_of_agree _ _ _ hA ag1
  have hg1' : w1.heap.deref g = w.heap.deref g := deref_of_agree _ _ _ hg ag1
  have hBv : w1.heap.valid B.fields := by
    rw [e1, eB]; exact WithFields_valid A w f of1 of2 hf
  have hB2 : B.context w2 = B.context w1 := deref_of_agree _ _ _ hBv ag2
  have hCl : ∀ k, (C.context w2).lookup k
      = ((w.heap.deref g).lookup k).or ((A.context w).lookup k) := fun k => by
    have := WithFields_lookup A w1 g og1 og2 hg1 hg2 k
    rw [← e2, ← eC, hg1'] at this
    rw [this]
    exact congrArg _ (congrArg _ hA1)
  have hBl : ∀ k, (B.context w2).lookup k
      = ((w.heap.deref f).lookup k).or ((A.context w).lookup k) := fun k => by
    have := WithFields_lookup A w f of1 of2 hf1 hf2 k
    rw [← e1, ← eB] at this
    rw [hB2]
    exact this
  refine ⟨hA1, hCl, fun ord hord => ⟨pretty_eq F _ _ _ hord, fun k _ hkA hkg hk => ?_⟩,
    fun ord hord => ⟨pretty_eq F _ _ _ hord, fun k _ hkA hkf hk => ?_⟩⟩
  · have hmem := (mem_keys_of_perm _ _ k hord).1 hk
    rcases (mem_of_lookup_or _ _ _ k (hCl k)).1 hmem with h | h
    · exact hkA h
    · exact hkg h
  · have hmem := (mem_keys_of_perm _ _ k hord).1 hk
    rcases (mem_of_lookup_or _ _ _ k (hBl k)).1 hmem with h | h
    · exact hkA h
    · exact hkf h

/-- C2 at the maps of the test: from the root logger, `B` is derived with
`foo: bar, baz: 2` and `C` with `biz: bar, buz: 2`; the rendering of `B` is
made of the pairs of the first map and the rendering of `C` of the pairs of
the second. -/
theorem WithFields_receiver_unchanged_witness :
    ((⟨none⟩ : simple).context copyWorld = (⟨none⟩ : simple).context copyWorld ∧
      (∀ k, ((⟨some 1⟩ : simple).context copyWorld).lookup k
        = ((copyWorld.heap.deref (some 1)).lookup k).or
            (((⟨none⟩ : simple).context copyWorld).lookup k)) ∧
      (∀ ord : List Entry, ord.Perm ((⟨some 1⟩ : simple).context copyWorld).entries →
        pretty plainFmt copyWorld.heap (some 1) ord = some (joinPairs ord) ∧
        ∀ k, k ∈ copyWorld.heap.deref (some 0) → k ∉ (⟨none⟩ : simple).context copyWorld →
          k ∉ copyWorld.heap.deref (some 1) → k ∉ ord.keys) ∧
      (∀ ord : List Entry, ord.Perm ((⟨some 0⟩ : simple).context copyWorld).entries →
        pretty plainFmt copyWorld.heap (some 0) ord = some (joinPairs ord) ∧
        ∀ k, k ∈ copyWorld.heap.deref (some 1) → k ∉ (⟨none⟩ : simple).context copyWorld →
          k ∉ copyWorld.heap.deref (some 0) → k ∉ ord.keys)) ∧
    pretty plainFmt copyWorld.heap (some 0) (copyWorld.heap.deref (some 0)).entries
      = some "baz=2 foo=bar" ∧
    pretty plainFmt copyWorld.heap (some 1) (copyWorld.heap.deref (some 1)).entries
      = some "buz=2 biz=bar" :=
  ⟨WithFields_receiver_unchanged plainFmt ⟨none⟩ ⟨some 0⟩ ⟨some 1⟩ copyWorld copyWorld copyWorld
      (some 0) (some 1) [] (copyWorld.heap.deref (some 0)).entries []
      (copyWorld.heap.deref (some 1)).entries (by decide) (by decide) (by decide) rfl rfl
      (List.Perm.refl _) (List.Perm.refl _) (List.Perm.refl _) (List.Perm.refl _),
    by decide, by decide⟩

/-- C3, the code on a root logger: `WithFields` on a logger whose map is nil
creates no map object and stores the map of the caller itself, here the map
at the address 0.  With the caller's map `foo: bar` the derived logger
renders `foo=bar`; after the caller has assigned `changed` to the key `foo`
of its own map, the same logger renders `foo=changed`. -/
theorem WithFields_root_stores_callers_map :
    ((⟨none⟩ : simple).WithFields callerWorld (some 0) []
        (callerWorld.heap.deref (some 0)).entries).2.fields = some 0 ∧
    ((⟨none⟩ : simple).WithFields callerWorld (some 0) []
        (callerWorld.heap.deref (some 0)).entries).1.heap.next = callerWorld.heap.next ∧
    pretty plainFmt callerWorld.heap (some 0) (callerWorld.heap.deref (some 0)).entries
      = some "foo=bar" ∧
    pretty plainFmt (callerWorld.heap.mapassign 0 "foo" (Value.str "changed")) (some 0)
        ((callerWorld.heap.mapassign 0 "foo" (Value.str "changed")).deref (some 0)).entries
      = some "foo=changed" := by
  decide

/-- C4 as stated fails: `Debug(1, 2)` on a root logger hands the text
`[DEBUG] 1 2 ` to the standard logger; the two representations with nothing
between them, `12`, do not occur in it. -/
theorem Debug_two_ints_spaced :
    (simple.Debug plainFmt ⟨none⟩ emptyWorld [Value.int 1, Value.int 2] []).map World.std
      = some ["[DEBUG] 1 2 "] ∧
    concatOperands [Value.int 1, Value.int 2] = "12" ∧
    ¬ occursIn (concatOperands [Value.int 1, Value.int 2]) "[DEBUG] 1 2 " := by
  decide

/-- C4 as amended: for every simple logger and every sequence of values,
each of `Debug`, `Info`, `Warn` and `Error` hands exactly one text to the
standard logger: its tag, a space, the default representations of the values
in their order with one space between two neighbours when neither is a
string and nothing between them otherwise, a space, and the rendering of the
field context.  Where no two neighbours are both not strings, the
representations are joined with nothing between them. -/
theorem leveled_text (F : Fmt) (b : simple) (w : World) (msg : List Value) (ord : List Entry)
    (hord : ord.Perm (b.context w).entries) :
    b.Debug F w msg ord
      = some ⟨w.heap, w.std ++ ["[DEBUG] " ++ joinOperands msg ++ " " ++ joinPairs ord]⟩ ∧
    b.Info F w msg ord
      = some ⟨w.heap, w.std ++ ["[INFO] " ++ joinOperands msg ++ " " ++ joinPairs ord]⟩ ∧
    b.Warn F w msg ord
      = some ⟨w.heap, w.std ++ ["[WARN] " ++ joinOperands msg ++ " " ++ joinPairs ord]⟩ ∧
    b.Error F w msg ord
      = some ⟨w.heap, w.std ++ ["[ERROR] " ++ joinOperands msg ++ " " ++ joinPairs ord]⟩ ∧
    (List.Chain' (fun v v' => v.isString = true ∨ v'.isString = true) msg →
      joinOperands msg = concatOperands msg) := by
  rw [← Sprint_eq_joinOperands]
  exact ⟨Debug_eq F b w msg ord hord, Info_eq F b w msg ord hord, Warn_eq F b w msg ord hord,
    Error_eq F b w msg ord hord, fun h => by
      rw [Sprint_eq_joinOperands]; exact joinOperands_eq_concat msg h⟩

/-- C4 at the call of the test: `Debug("hi there ", "you")` on the root logger
hands over one text, in which `[DEBUG] hi there you` occurs. -/
theorem leveled_text_witness :
    ((⟨none⟩ : simple).Debug plainFmt emptyWorld [Value.str "hi there ", Value.str "you"] []
        = some ⟨emptyWorld.heap, emptyWorld.std ++
            ["[DEBUG] " ++ joinOperands [Value.str "hi there ", Value.str "you"] ++ " "
              ++ joinPairs []]⟩ ∧
      (⟨none⟩ : simple).Info plainFmt emptyWorld [Value.str "hi there ", Value.str "you"] []
        = some ⟨emptyWorld.heap, emptyWorld.std ++
            ["[INFO] " ++ joinOperands [Value.str "hi there ", Value.str "you"] ++ " "
              ++ joinPairs []]⟩ ∧
      (⟨none⟩ : simple).Warn plainFmt emptyWorld [Value.str "hi there ", Value.str "you"] []
        = some ⟨emptyWorld.heap, emptyWorld.std ++
            ["[WARN] " ++ joinOperands [Value.str "hi there ", Value.str "you"] ++ " "
              ++ joinPairs []]⟩ ∧
      (⟨none⟩ : simple).Error plainFmt emptyWorld [Value.str "hi there ", Value.str "you"] []
        = some ⟨emptyWorld.heap, emptyWorld.std ++
            ["[ERROR] " ++ joinOperands [Value.str "hi there ", Value.str "you"] ++ " "
              ++ joinPairs []]⟩ ∧
      (List.Chain' (fun v v' => v.isString = true ∨ v'.isString = true)
          [Value.str "hi there ", Value.str "you"] →
        joinOperands [Value.str "hi there ", Value.str "you"]
          = concatOperands [Value.str "hi there ", Value.str "you"])) ∧
    "[DEBUG] " ++ joinOperands [Value.str "hi there ", Value.str "you"] ++ " " ++ joinPairs []
      = "[DEBUG] hi there you " ∧
    occursIn "[DEBUG] hi there you" "[DEBUG] hi there you " :=
  ⟨leveled_text plainFmt ⟨none⟩ emptyWorld [Value.str "hi there ", Value.str "you"] []
      (List.Perm.refl _), by decide, by decide⟩

/-- C5 as stated fails: `Debugf("hi there %s", "you")` on a root logger hands
over the text `[DEBUG] hi there you ` with a space at its end, which is not
`[DEBUG] ` followed by the substitution `hi there you`. -/
theorem Debugf_root_trailing_space :
    (simple.Debugf plainFmt ⟨none⟩ emptyWorld "hi there %s" [Value.str "you"] []).map World.std
      = some ["[DEBUG] hi there you "] ∧
    Sprintf plainFmt "hi there %s" [Value.str "you"] = "hi there you" ∧
    "[DEBUG] hi there you " ≠ "[DEBUG] " ++ Sprintf plainFmt "hi there %s" [Value.str "you"] := by
  decide

/-- C5 as amended: for every template and every list of operands, `Debugf`
on a simple logger with an empty field context hands exactly one text to the
standard logger: `[DEBUG] `, the substitution of the operands into the
template, and one space after it, with nothing else before, inside or after;
and formatting `[DEBUG] ` followed by the template gives `[DEBUG] ` followed
by the formatted template. -/
theorem Debugf_text_empty_context (F : Fmt) (b : simple) (w : World) (format : String)
    (args : List Value) (ord : List Entry) (hempty : (b.context w).entries = [])
    (hord : ord.Perm (b.context w).entries) :
    b.Debugf F w format args ord
      = some ⟨w.heap, w.std ++ ["[DEBUG] " ++ Sprintf F format args ++ " "]⟩ ∧
    Sprintf F ("[DEBUG] " ++ format) args = "[DEBUG] " ++ Sprintf F format args := by
  refine ⟨?_, Sprintf_literal F _ _ _ (by decide)⟩
  rw [Debugf_eq F b w format args ord hord, joinPairs_of_empty _ _ hempty hord,
    String.append_empty]

/-- C5 at the call of the test: `Debugf("hi there %s", "you")` on the root
logger hands over `[DEBUG] hi there you` and one space. -/
theorem Debugf_text_empty_context_witness :
    ((⟨none⟩ : simple).Debugf plainFmt emptyWorld "hi there %s" [Value.str "you"] []
        = some ⟨emptyWorld.heap, emptyWorld.std ++
            ["[DEBUG] " ++ Sprintf plainFmt "hi there %s" [Value.str "you"] ++ " "]⟩ ∧
      Sprintf plainFmt ("[DEBUG] " ++ "hi there %s") [Value.str "you"]
        = "[DEBUG] " ++ Sprintf plainFmt "hi there %s" [Value.str "you"]) ∧
    "[DEBUG] " ++ Sprintf plainFmt "hi there %s" [Value.str "you"] ++ " "
      = "[DEBUG] hi there you " :=
  ⟨Debugf_text_empty_context plainFmt ⟨none⟩ emptyWorld "hi there %s" [Value.str "you"] []
      rfl (List.Perm.refl _), by decide⟩

/-- C6 as stated fails: `Info("hi")` on a root logger, whose field context is
empty, hands over the text `[INFO] hi ` with a space after the message,
which is not the tag followed by the message alone. -/
theorem Info_root_trailing_space :
    (simple.Info plainFmt ⟨none⟩ emptyWorld [Value.str "hi"] []).map World.std
      = some ["[INFO] hi "] ∧
    Sprint [Value.str "hi"] = "hi" ∧
    "[INFO] hi " ≠ "[INFO] " ++ Sprint [Value.str "hi"] := by
  decide

/-- C6 as amended: for every simple logger, each of the four leveled and the
four formatted emitters hands over the text made of its tag, a space, the
message, one space and the rendering of the field context; the message of a
leveled emitter is `Sprint` of its values and the message of a formatted
emitter the substitution of its operands into its template.  The rendering
of an empty field context is empty, so that the text then ends with the one
space after the message. -/
theorem emitters_shape (F : Fmt) (b : simple) (w : World) (msg : List Value) (format : String)
    (args : List Value) (ord : List Entry) (hord : ord.Perm (b.context w).entries) :
    b.Debug F w msg ord
      = some ⟨w.heap, w.std ++ ["[DEBUG] " ++ Sprint msg ++ " " ++ joinPairs ord]⟩ ∧
    b.Info F w msg ord
      = some ⟨w.heap, w.std ++ ["[INFO] " ++ Sprint msg ++ " " ++ joinPairs ord]⟩ ∧
    b.Warn F w msg ord
      = some ⟨w.heap, w.std ++ ["[WARN] " ++ Sprint msg ++ " " ++ joinPairs ord]⟩ ∧
    b.Error F w msg ord
      = some ⟨w.heap, w.std ++ ["[ERROR] " ++ Sprint msg ++ " " ++ joinPairs ord]⟩ ∧
    b.Debugf F w format args ord
      = some ⟨w.heap, w.std ++
          ["[DEBUG] " ++ Sprintf F format args ++ " " ++ joinPairs ord]⟩ ∧
    b.Infof F w format args ord
      = some ⟨w.heap, w.std ++
          ["[INFO] " ++ Sprintf F format args ++ " " ++ joinPairs ord]⟩ ∧
    b.Warnf F w format args ord
      = some ⟨w.heap, w.std ++
          ["[WARN] " ++ Sprintf F format args ++ " " ++ joinPairs ord]⟩ ∧
    b.Errorf F w format args ord
      = some ⟨w.heap, w.std ++
          ["[ERROR] " ++ Sprintf F format args ++ " " ++ joinPairs ord]⟩ ∧
    ((b.context w).entries = [] → joinPairs ord = "") :=
  ⟨Debug_eq F b w msg ord hord, Info_eq F b w msg ord hord, Warn_eq F b w msg ord hord,
    Error_eq F b w msg ord hord, Debugf_eq F b w format args ord hord,
    Infof_eq F b w format args ord hord, Warnf_eq F b w format args ord hord,
    Errorf_eq F b w format args ord hord, fun h => joinPairs_of_empty _ _ h hord⟩

/-- C6 at a logger with the field context `foo: bar`: the texts for the
message `hi` end with one space and the pair `foo=bar`. -/
theorem emitters_shape_witness :
    ((⟨some 0⟩ : simple).Debug plainFmt callerWorld [Value.str "hi"] (callerWorld.heap.deref (some 0)).entries
        = some ⟨callerWorld.heap, callerWorld.std ++ ["[DEBUG] " ++ Sprint [Value.str "hi"] ++ " " ++ joinPairs (callerWorld.heap.deref (some 0)).entries]⟩ ∧
      (⟨some 0⟩ : simple).Info plainFmt callerWorld [Value.str "hi"] (callerWorld.heap.deref (some 0)).entries
        = some ⟨callerWorld.heap, callerWorld.std ++ ["[INFO] " ++ Sprint [Value.str "hi"] ++ " " ++ joinPairs (callerWorld.heap.deref (some 0)).entries]⟩ ∧
      (⟨some 0⟩ : simple).Warn plainFmt callerWorld [Value.str "hi"] (callerWorld.heap.deref (some 0)).entries
        = some ⟨callerWorld.heap, callerWorld.std ++ ["[WARN] " ++ Sprint [Value.str "hi"] ++ " " ++ joinPairs (callerWorld.heap.deref (some 0)).entries]⟩ ∧
      (⟨some 0⟩ : simple).Error plainFmt callerWorld [Value.str "hi"] (callerWorld.heap.deref (some 0)).entries
        = some ⟨callerWorld.heap, callerWorld.std ++ ["[ERROR] " ++ Sprint [Value.str "hi"] ++ " " ++ joinPairs (callerWorld.heap.deref (some 0)).entries]⟩ ∧
      (⟨some 0⟩ : simple).Debugf plainFmt callerWorld "h%s" [Value.str "i"] (callerWorld.heap.deref (some 0)).entries
        = some ⟨callerWorld.heap, callerWorld.std ++
            ["[DEBUG] " ++ Sprintf plainFmt "h%s" [Value.str "i"] ++ " " ++ joinPairs (callerWorld.heap.deref (some 0)).entries]⟩ ∧
      (⟨some 0⟩ : simple).Infof plainFmt callerWorld "h%s" [Value.str "i"] (callerWorld.heap.deref (some 0)).entries
        = some ⟨callerWorld.heap, callerWorld.std ++
            ["[INFO] " ++ Sprintf plainFmt "h%s" [Value.str "i"] ++ " " ++ joinPairs (callerWorld.heap.deref (some 0)).entries]⟩ ∧
      (⟨some 0⟩ : simple).Warnf plainFmt callerWorld "h%s" [Value.str "i"] (callerWorld.heap.deref (some 0)).entries
        = some ⟨callerWorld.heap, callerWorld.std ++
            ["[WARN] " ++ Sprintf plainFmt "h%s" [Value.str "i"] ++ " " ++ joinPairs (callerWorld.heap.deref (some 0)).entries]⟩ ∧
      (⟨some 0⟩ : simple).Errorf plainFmt callerWorld "h%s" [Value.str "i"] (callerWorld.heap.deref (some 0)).entries
        = some ⟨callerWorld.heap, callerWorld.std ++
            ["[ERROR] " ++ Sprintf plainFmt "h%s" [Value.str "i"] ++ " " ++ joinPairs (callerWorld.heap.deref (some 0)).entries]⟩ ∧
      (((⟨some 0⟩ : simple).context callerWorld).entries = [] → joinPairs (callerWorld.heap.deref (some 0)).entries = "")) ∧
    "[DEBUG] " ++ Sprint [Value.str "hi"] ++ " "
        ++ joinPairs (callerWorld.heap.deref (some 0)).entries = "[DEBUG] hi foo=bar" ∧
    "[ERROR] " ++ Sprintf plainFmt "h%s" [Value.str "i"] ++ " "
        ++ joinPairs (callerWorld.heap.deref (some 0)).entries = "[ERROR] hi foo=bar" :=
  ⟨emitters_shape plainFmt ⟨some 0⟩ callerWorld [Value.str "hi"] "h%s" [Value.str "i"]
      (callerWorld.heap.deref (some 0)).entries (List.Perm.refl _), by decide, by decide⟩

/-- A text ends with a space exactly when its last character is a space. -/
theorem endsWith_space_iff (s : String) : endsWith s " " ↔ s.data.getLast? = some ' ' := by
  unfold endsWith
  constructor
  · rintro ⟨t, ht⟩
    rw [← ht]
    simp
  · intro h
    exact ⟨s.data.dropLast, List.dropLast_append_getLast? ' ' h⟩

/-- A pair ends with a space exactly when the representation of its value does. -/
theorem pairText_getLast (e : Entry) :
    (pairText e).data.getLast? = some ' ' ↔ e.2.repr.data.getLast? = some ' ' := by
  unfold pairText
  simp only [String.data_append]
  cases hr : e.2.repr.data with
  | nil => simp
  | cons c cs => simp [List.getLast?_append, List.getLast?_cons_cons]

/-- The joined pairs end with a space exactly when the representation of the
value of the last entry does. -/
theorem joinPairs_trailing_space (ord : List Entry) (e : Entry) (hl : ord.getLast? = some e) :
    endsWith (joinPairs ord) " " ↔ endsWith e.2.repr " " := by
  rw [endsWith_space_iff, endsWith_space_iff, ← pairText_getLast]
  obtain ⟨t, ht⟩ := joinPairs_endsWith ord e hl
  have hne : (pairText e).data ≠ [] := by
    simp [pairText]
  rw [← ht, List.getLast?_append_of_ne_nil _ hne]

/-- C7 as stated fails: for the map whose only entry has the key `k` and the
string `v ` with a space at its end as value, `pretty` returns `k=v `, which
has a trailing space. -/
theorem pretty_value_trailing_space :
    (spaceWorld.heap.deref (some 0)).entries = [⟨"k", Value.str "v "⟩] ∧
    pretty plainFmt spaceWorld.heap (some 0) (spaceWorld.heap.deref (some 0)).entries
      = some "k=v " ∧
    endsWith "k=v " " " := by
  decide

/-- C7 as amended: `pretty` of a map without entries, the nil map among them,
is the empty string.  For every map, when the runtime visits the entries in
the order `ord`, `pretty` returns the pairs `key=value` of `ord`, the values
in their default representation, joined by exactly one space, with nothing
after the last pair: the result ends with the pair of the entry visited
last, and it ends with a space exactly when the default representation of
the value visited last does.  `ord` holds every key of the map exactly once,
each with the value the map holds for it. -/
theorem pretty_renders (F : Fmt) (h : Heap) (m : MapRef) (ord : List Entry)
    (hord : ord.Perm (h.deref m).entries) :
    (∀ ord' : List Entry, (h.deref m).entries = [] → pretty F h m ord' = some "") ∧
    pretty F h m ord = some (joinPairs ord) ∧
    (∀ e, ord.getLast? = some e → endsWith (joinPairs ord) (pairText e)) ∧
    (∀ e, ord.getLast? = some e →
      (endsWith (joinPairs ord) " " ↔ endsWith e.2.repr " ")) ∧
    ord.keys.Nodup ∧
    (∀ k, k ∈ ord.keys ↔ k ∈ h.deref m) ∧
    (∀ e ∈ ord, (h.deref m).lookup e.1 = some e.2) := by
  refine ⟨fun ord' he => ?_, pretty_eq F h m ord hord, joinPairs_endsWith ord,
    joinPairs_trailing_space ord, ?_, fun k => mem_keys_of_perm _ _ k hord, fun e he => ?_⟩
  · simp [pretty, he]
  · exact (List.perm_nodupKeys hord).2 (h.deref m).nodupKeys
  · obtain ⟨k, v⟩ := e
    exact AList.mem_lookup_iff.2 (hord.mem_iff.1 he)

/-- C7 at the logger of the test "appends to preexisting fields": the
rendering holds `foo=newval`, `baz=origval` and `biz=buzz`, and does not hold
`foo=oldval`. -/
theorem pretty_renders_witness :
    ((∀ ord' : List Entry, (appendDerived.1.heap.deref appendDerived.2.fields).entries = [] →
        pretty plainFmt appendDerived.1.heap appendDerived.2.fields ord' = some "") ∧
      pretty plainFmt appendDerived.1.heap appendDerived.2.fields
          (appendDerived.2.context appendDerived.1).entries
        = some (joinPairs (appendDerived.2.context appendDerived.1).entries) ∧
      (∀ e, (appendDerived.2.context appendDerived.1).entries.getLast? = some e →
        endsWith (joinPairs (appendDerived.2.context appendDerived.1).entries) (pairText e)) ∧
      (∀ e, (appendDerived.2.context appendDerived.1).entries.getLast? = some e →
        (endsWith (joinPairs (appendDerived.2.context appendDerived.1).entries) " "
          ↔ endsWith e.2.repr " ")) ∧
      (appendDerived.2.context appendDerived.1).entries.keys.Nodup ∧
      (∀ k, k ∈ (appendDerived.2.context appendDerived.1).entries.keys
        ↔ k ∈ appendDerived.1.heap.deref appendDerived.2.fields) ∧
      (∀ e ∈ (appendDerived.2.context appendDerived.1).entries,
        (appendDerived.1.heap.deref appendDerived.2.fields).lookup e.1 = some e.2)) ∧
    joinPairs (appendDerived.2.context appendDerived.1).entries
      = "foo=newval biz=buzz baz=origval" ∧
    ¬ occursIn "foo=oldval" (joinPairs (appendDerived.2.context appendDerived.1).entries) ∧
    ¬ endsWith (joinPairs (appendDerived.2.context appendDerived.1).entries) " " ∧
    pretty plainFmt emptyWorld.heap none [] = some "" :=
  ⟨pretty_renders plainFmt appendDerived.1.heap appendDerived.2.fields
      (appendDerived.2.context appendDerived.1).entries (List.Perm.refl _),
    by decide, by decide, by decide, by decide⟩

/-- C8: every emitter of the simple logger uses the tag of its own level:
the one text that `Debug` and `Debugf` hand over starts with `[DEBUG] `,
that of `Info` and `Infof` with `[INFO] `, that of `Warn` and `Warnf` with
`[WARN] `, that of `Error` and `Errorf` with `[ERROR] `, and the message
follows the tag at once. -/
theorem emitters_tag (F : Fmt) (b : simple) (w : World) (msg : List Value) (format : String)
    (args : List Value) (ord : List Entry) (hord : ord.Perm (b.context w).entries) :
    (∃ text, b.Debug F w msg ord = some ⟨w.heap, w.std ++ [text]⟩ ∧
      startsWith text ("[DEBUG] " ++ Sprint msg)) ∧
    (∃ text, b.Info F w msg ord = some ⟨w.heap, w.std ++ [text]⟩ ∧
      startsWith text ("[INFO] " ++ Sprint msg)) ∧
    (∃ text, b.Warn F w msg ord = some ⟨w.heap, w.std ++ [text]⟩ ∧
      startsWith text ("[WARN] " ++ Sprint msg)) ∧
    (∃ text, b.Error F w msg ord = some ⟨w.heap, w.std ++ [text]⟩ ∧
      startsWith text ("[ERROR] " ++ Sprint msg)) ∧
    (∃ text, b.Debugf F w format args ord = some ⟨w.heap, w.std ++ [text]⟩ ∧
      startsWith text ("[DEBUG] " ++ Sprintf F format args)) ∧
    (∃ text, b.Infof F w format args ord = some ⟨w.heap, w.std ++ [text]⟩ ∧
      startsWith text ("[INFO] " ++ Sprintf F format args)) ∧
    (∃ text, b.Warnf F w format args ord = some ⟨w.heap, w.std ++ [text]⟩ ∧
      startsWith text ("[WARN] " ++ Sprintf F format args)) ∧
    (∃ text, b.Errorf F w format args ord = some ⟨w.heap, w.std ++ [text]⟩ ∧
      startsWith text ("[ERROR] " ++ Sprintf F format args)) :=
  ⟨⟨_, Debug_eq F b w msg ord hord, startsWith_tag_body _ _ _⟩,
    ⟨_, Info_eq F b w msg ord hord, startsWith_tag_body _ _ _⟩,
    ⟨_, Warn_eq F b w msg ord hord, startsWith_tag_body _ _ _⟩,
    ⟨_, Error_eq F b w msg ord hord, startsWith_tag_body _ _ _⟩,
    ⟨_, Debugf_eq F b w format args ord hord, startsWith_tag_body _ _ _⟩,
    ⟨_, Infof_eq F b w format args ord hord, startsWith_tag_body _ _ _⟩,
    ⟨_, Warnf_eq F b w format args ord hord, startsWith_tag_body _ _ _⟩,
    ⟨_, Errorf_eq F b w format args ord hord, startsWith_tag_body _ _ _⟩⟩

/-- C8 at the calls of the tests: on the root logger every leveled emitter
called with `hi there` and every formatted emitter called with `hi %s` and
`there` hands over its tag followed by `hi there`. -/
theorem emitters_tag_witness :
    ((∃ text, (⟨none⟩ : simple).Debug plainFmt emptyWorld [Value.str "hi there"] [] = some ⟨emptyWorld.heap, emptyWorld.std ++ [text]⟩ ∧
        startsWith text ("[DEBUG] " ++ Sprint [Value.str "hi there"])) ∧
      (∃ text, (⟨none⟩ : simple).Info plainFmt emptyWorld [Value.str "hi there"] [] = some ⟨emptyWorld.heap, emptyWorld.std ++ [text]⟩ ∧
        startsWith text ("[INFO] " ++ Sprint [Value.str "hi there"])) ∧
      (∃ text, (⟨none⟩ : simple).Warn plainFmt emptyWorld [Value.str "hi there"] [] = some ⟨emptyWorld.heap, emptyWorld.std ++ [text]⟩ ∧
        startsWith text ("[WARN] " ++ Sprint [Value.str "hi there"])) ∧
      (∃ text, (⟨none⟩ : simple).Error plainFmt emptyWorld [Value.str "hi there"] [] = some ⟨emptyWorld.heap, emptyWorld.std ++ [text]⟩ ∧
        startsWith text ("[ERROR] " ++ Sprint [Value.str "hi there"])) ∧
      (∃ text, (⟨none⟩ : simple).Debugf plainFmt emptyWorld "hi %s" [Value.str "there"] [] = some ⟨emptyWorld.heap, emptyWorld.std ++ [text]⟩ ∧
        startsWith text ("[DEBUG] " ++ Sprintf plainFmt "hi %s" [Value.str "there"])) ∧
      (∃ text, (⟨none⟩ : simple).Infof plainFmt emptyWorld "hi %s" [Value.str "there"] [] = some ⟨emptyWorld.heap, emptyWorld.std ++ [text]⟩ ∧
        startsWith text ("[INFO] " ++ Sprintf plainFmt "hi %s" [Value.str "there"])) ∧
      (∃ text, (⟨none⟩ : simple).Warnf plainFmt emptyWorld "hi %s" [Value.str "there"] [] = some ⟨emptyWorld.heap, emptyWorld.std ++ [text]⟩ ∧
        startsWith text ("[WARN] " ++ Sprintf plainFmt "hi %s" [Value.str "there"])) ∧
      (∃ text, (⟨none⟩ : simple).Errorf plainFmt emptyWorld "hi %s" [Value.str "there"] [] = some ⟨emptyWorld.heap, emptyWorld.std ++ [text]⟩ ∧
        startsWith text ("[ERROR] " ++ Sprintf plainFmt "hi %s" [Value.str "there"]))) ∧
    (simple.Debug plainFmt ⟨none⟩ emptyWorld [Value.str "hi there"] []).map World.std
      = some ["[DEBUG] hi there "] ∧
    (simple.Info plainFmt ⟨none⟩ emptyWorld [Value.str "hi there"] []).map World.std
      = some ["[INFO] hi there "] ∧
    (simple.Warn plainFmt ⟨none⟩ emptyWorld [Value.str "hi there"] []).map World.std
      = some ["[WARN] hi there "] ∧
    (simple.Error plainFmt ⟨none⟩ emptyWorld [Value.str "hi there"] []).map World.std
      = some ["[ERROR] hi there "] ∧
    (simple.Debugf plainFmt ⟨none⟩ emptyWorld "hi %s" [Value.str "there"] []).map World.std
      = some ["[DEBUG] hi there "] ∧
    (simple.Infof plainFmt ⟨none⟩ emptyWorld "hi %s" [Value.str "there"] []).map World.std
      = some ["[INFO] hi there "] ∧
    (simple.Warnf plainFmt ⟨none⟩ emptyWorld "hi %s" [Value.str "there"] []).map World.std
      = some ["[WARN] hi there "] ∧
    (simple.Errorf plainFmt ⟨none⟩ emptyWorld "hi %s" [Value.str "there"] []).map World.std
      = some ["[ERROR] hi there "] :=
  ⟨emitters_tag plainFmt ⟨none⟩ emptyWorld [Value.str "hi there"] "hi %s" [Value.str "there"] []
      (List.Perm.refl _), by decide⟩

/-- Fact: `WithFields` on the no-op logger, through the interface, returns the
state and the logger as they are. -/
theorem deriveChain_noop (w : World) (chain : List (MapRef × List Entry × List Entry)) :
    deriveChain NewNoop w chain = (w, NewNoop) := by
  induction chain with
  | nil => rfl
  | cons c cs ih => exact ih

/-- C9: the no-op logger.  `WithFields` returns the receiver itself and
leaves the state as it is, so that the logger reached from `NewNoop` by any
finite chain of `WithFields` calls is the same no-op logger in the same
state; each of the eight emitters called on it returns, and the state after
the call, the texts handed to the standard logger among it, is the state
before the call. -/
theorem noop_silent (F : Fmt) (w : World) (chain : List (MapRef × List Entry × List Entry))
    (fields : MapRef) (o1 o2 : List Entry) (msg : List Value) (format : String)
    (args : List Value) (ord : List Entry) :
    NewNoop.WithFields w fields o1 o2 = (w, NewNoop) ∧
    deriveChain NewNoop w chain = (w, NewNoop) ∧
    (deriveChain NewNoop w chain).2.Debug F (deriveChain NewNoop w chain).1 msg ord = some w ∧
    (deriveChain NewNoop w chain).2.Info F (deriveChain NewNoop w chain).1 msg ord = some w ∧
    (deriveChain NewNoop w chain).2.Warn F (deriveChain NewNoop w chain).1 msg ord = some w ∧
    (deriveChain NewNoop w chain).2.Error F (deriveChain NewNoop w chain).1 msg ord = some w ∧
    (deriveChain NewNoop w chain).2.Debugf F (deriveChain NewNoop w chain).1 format args ord
      = some w ∧
    (deriveChain NewNoop w chain).2.Infof F (deriveChain NewNoop w chain).1 format args ord
      = some w ∧
    (deriveChain NewNoop w chain).2.Warnf F (deriveChain NewNoop w chain).1 format args ord
      = some w ∧
    (deriveChain NewNoop w chain).2.Errorf F (deriveChain NewNoop w chain).1 format args ord
      = some w := by
  rw [deriveChain_noop]
  exact ⟨rfl, rfl, rfl, rfl, rfl, rfl, rfl, rfl, rfl, rfl⟩

/-- C10: for every simple logger and every input, each call of one of the
eight emitters returns and adds exactly one text to the texts handed to the
standard logger, and `WithFields` adds none. -/
theorem emitters_write_once (F : Fmt) (b : simple) (w : World) (msg : List Value)
    (format : String) (args : List Value) (ord : List Entry) (fields : MapRef)
    (o1 o2 : List Entry) (hord : ord.Perm (b.context w).entries) :
    (∃ w' text, b.Debug F w msg ord = some w' ∧ w'.std = w.std ++ [text]) ∧
    (∃ w' text, b.Info F w msg ord = some w' ∧ w'.std = w.std ++ [text]) ∧
    (∃ w' text, b.Warn F w msg ord = some w' ∧ w'.std = w.std ++ [text]) ∧
    (∃ w' text, b.Error F w msg ord = some w' ∧ w'.std = w.std ++ [text]) ∧
    (∃ w' text, b.Debugf F w format args ord = some w' ∧
      w'.std = w.std ++ [text]) ∧
    (∃ w' text, b.Infof F w format args ord = some w' ∧
      w'.std = w.std ++ [text]) ∧
    (∃ w' text, b.Warnf F w format args ord = some w' ∧
      w'.std = w.std ++ [text]) ∧
    (∃ w' text, b.Errorf F w format args ord = some w' ∧
      w'.std = w.std ++ [text]) ∧
    (b.WithFields w fields o1 o2).1.std = w.std :=
  ⟨⟨_, _, Debug_eq F b w msg ord hord, rfl⟩, ⟨_, _, Info_eq F b w msg ord hord, rfl⟩,
    ⟨_, _, Warn_eq F b w msg ord hord, rfl⟩, ⟨_, _, Error_eq F b w msg ord hord, rfl⟩,
    ⟨_, _, Debugf_eq F b w format args ord hord, rfl⟩,
    ⟨_, _, Infof_eq F b w format args ord hord, rfl⟩,
    ⟨_, _, Warnf_eq F b w format args ord hord, rfl⟩,
    ⟨_, _, Errorf_eq F b w format args ord hord, rfl⟩, WithFields_std b w fields o1 o2⟩

/-- C10 at a logger with the field context `foo: bar`, after one text has been
handed over: every emitter adds one text, and a derivation with the same map
adds none. -/
theorem emitters_write_once_witness :
    ((∃ w' text, (⟨some 0⟩ : simple).Debug plainFmt loggedWorld [Value.int 1, Value.int 2] (loggedWorld.heap.deref (some 0)).entries = some w' ∧ w'.std = loggedWorld.std ++ [text]) ∧
      (∃ w' text, (⟨some 0⟩ : simple).Info plainFmt loggedWorld [Value.int 1, Value.int 2] (loggedWorld.heap.deref (some 0)).entries = some w' ∧ w'.std = loggedWorld.std ++ [text]) ∧
      (∃ w' text, (⟨some 0⟩ : simple).Warn plainFmt loggedWorld [Value.int 1, Value.int 2] (loggedWorld.heap.deref (some 0)).entries = some w' ∧ w'.std = loggedWorld.std ++ [text]) ∧
      (∃ w' text, (⟨some 0⟩ : simple).Error plainFmt loggedWorld [Value.int 1, Value.int 2] (loggedWorld.heap.deref (some 0)).entries = some w' ∧ w'.std = loggedWorld.std ++ [text]) ∧
      (∃ w' text, (⟨some 0⟩ : simple).Debugf plainFmt loggedWorld "%d" [Value.int 3] (loggedWorld.heap.deref (some 0)).entries = some w' ∧
        w'.std = loggedWorld.std ++ [text]) ∧
      (∃ w' text, (⟨some 0⟩ : simple).Infof plainFmt loggedWorld "%d" [Value.int 3] (loggedWorld.heap.deref (some 0)).entries = some w' ∧
        w'.std = loggedWorld.std ++ [text]) ∧
      (∃ w' text, (⟨some 0⟩ : simple).Warnf plainFmt loggedWorld "%d" [Value.int 3] (loggedWorld.heap.deref (some 0)).entries = some w' ∧
        w'.std = loggedWorld.std ++ [text]) ∧
      (∃ w' text, (⟨some 0⟩ : simple).Errorf plainFmt loggedWorld "%d" [Value.int 3] (loggedWorld.heap.deref (some 0)).entries = some w' ∧
        w'.std = loggedWorld.std ++ [text]) ∧
      ((⟨some 0⟩ : simple).WithFields loggedWorld (some 0) (loggedWorld.heap.deref (some 0)).entries (loggedWorld.heap.deref (some 0)).entries).1.std = loggedWorld.std) ∧
    ((⟨some 0⟩ : simple).Warn plainFmt loggedWorld [Value.int 1, Value.int 2]
        (loggedWorld.heap.deref (some 0)).entries).map World.std
      = some ["[INFO] started ", "[WARN] 1 2 foo=bar"] ∧
    ((⟨some 0⟩ : simple).Errorf plainFmt loggedWorld "%d" [Value.int 3]
        (loggedWorld.heap.deref (some 0)).entries).map World.std
      = some ["[INFO] started ", "[ERROR] 3 foo=bar"] :=
  ⟨emitters_write_once plainFmt ⟨some 0⟩ loggedWorld [Value.int 1, Value.int 2] "%d"
      [Value.int 3] (loggedWorld.heap.deref (some 0)).entries (some 0)
      (loggedWorld.heap.deref (some 0)).entries (loggedWorld.heap.deref (some 0)).entries
      (List.Perm.refl _), by decide, by decide⟩

/-- A pair has at least one character, the equals sign. -/
theorem pairText_length_pos (e : Entry) : 1 ≤ (pairText e).length := by
  unfold pairText
  rw [String.length_append, String.length_append]
  have : ("=" : String).length = 1 := rfl
  omega

/-- The joined pairs of at least one entry have at least one character. -/
theorem joinPairs_length_pos (e : Entry) (es : List Entry) :
    1 ≤ (joinPairs (e :: es)).length := by
  cases es with
  | nil => exact pairText_length_pos e
  | cons e' es =>
    simp only [joinPairs, String.length_append]
    have := pairText_length_pos e
    omega

/-- C11: `pretty` never slices out of range.  For every map with at least one
entry and every order in which the runtime visits its entries, the string
that the loop builds is the joined pairs followed by one space: it has at
least two characters and ends with the pair visited last and a space, so
that the slice up to its length minus one is in range and cuts off exactly
that one space; `pretty` returns the joined pairs.  For a map without
entries, the nil map among them, `pretty` returns before the slice, whatever
the loop would have built. -/
theorem pretty_slice_in_range (F : Fmt) (h : Heap) (m : MapRef) (ord : List Entry)
    (hord : ord.Perm (h.deref m).entries) :
    ((h.deref m).entries ≠ [] →
      2 ≤ (prettyLoop F ord).length ∧
      endsWith (prettyLoop F ord) " " ∧
      prettyLoop F ord = joinPairs ord ++ " " ∧
      (∀ e, ord.getLast? = some e → endsWith (prettyLoop F ord) (pairText e ++ " ")) ∧
      sliceTo (prettyLoop F ord) (((prettyLoop F ord).length : Int) - 1)
        = some (joinPairs ord) ∧
      pretty F h m ord = some (joinPairs ord)) ∧
    ((h.deref m).entries = [] → ∀ ord' : List Entry, pretty F h m ord' = some "") := by
  refine ⟨fun hne => ?_, fun he ord' => by simp [pretty, he]⟩
  cases ord with
  | nil => exact absurd (List.Perm.nil_eq hord).symm hne
  | cons e es =>
    have hl : prettyLoop F (e :: es) = joinPairs (e :: es) ++ " " := prettyLoop_eq F e es
    have hlen : (joinPairs (e :: es) ++ " ").length = (joinPairs (e :: es)).length + 1 := by
      rw [String.length_append]; rfl
    have hpos := joinPairs_length_pos e es
    refine ⟨by rw [hl, hlen]; omega, ?_, hl, fun e' he' => ?_, ?_, pretty_eq F h m _ hord⟩
    · rw [hl]
      unfold endsWith
      rw [String.data_append]
      exact List.suffix_append _ _
    · rw [hl]
      have hs := joinPairs_endsWith (e :: es) e' he'
      unfold endsWith at hs ⊢
      obtain ⟨t, ht⟩ := hs
      refine ⟨t, ?_⟩
      rw [String.data_append, String.data_append, ← ht, List.append_assoc]
    · rw [hl]
      exact sliceTo_append_space _

/-- C11 at the map whose only key and only value are the empty string: the
loop builds `= `, of two characters, and `pretty` returns `=`; and for the nil
map `pretty` returns the empty string although the slice of the empty loop
string would be out of range. -/
theorem pretty_slice_in_range_witness :
    (((edgeWorld.heap.deref (some 0)).entries ≠ [] →
        2 ≤ (prettyLoop plainFmt (edgeWorld.heap.deref (some 0)).entries).length ∧
        endsWith (prettyLoop plainFmt (edgeWorld.heap.deref (some 0)).entries) " " ∧
        prettyLoop plainFmt (edgeWorld.heap.deref (some 0)).entries
          = joinPairs (edgeWorld.heap.deref (some 0)).entries ++ " " ∧
        (∀ e, (edgeWorld.heap.deref (some 0)).entries.getLast? = some e →
          endsWith (prettyLoop plainFmt (edgeWorld.heap.deref (some 0)).entries)
            (pairText e ++ " ")) ∧
        sliceTo (prettyLoop plainFmt (edgeWorld.heap.deref (some 0)).entries)
            (((prettyLoop plainFmt (edgeWorld.heap.deref (some 0)).entries).length : Int) - 1)
          = some (joinPairs (edgeWorld.heap.deref (some 0)).entries) ∧
        pretty plainFmt edgeWorld.heap (some 0) (edgeWorld.heap.deref (some 0)).entries
          = some (joinPairs (edgeWorld.heap.deref (some 0)).entries)) ∧
      ((edgeWorld.heap.deref (some 0)).entries = [] →
        ∀ ord' : List Entry, pretty plainFmt edgeWorld.heap (some 0) ord' = some "")) ∧
    (edgeWorld.heap.deref (some 0)).entries ≠ [] ∧
    prettyLoop plainFmt (edgeWorld.heap.deref (some 0)).entries = "= " ∧
    pretty plainFmt edgeWorld.heap (some 0) (edgeWorld.heap.deref (some 0)).entries
      = some "=" ∧
    sliceTo (prettyLoop plainFmt []) (((prettyLoop plainFmt []).length : Int) - 1) = none ∧
    pretty plainFmt edgeWorld.heap none [] = some "" :=
  ⟨pretty_slice_in_range plainFmt edgeWorld.heap (some 0)
      (edgeWorld.heap.deref (some 0)).entries (List.Perm.refl _),
    by decide, by decide, by decide, by decide, by decide⟩

/-- Fact: `Sprint` of one string is the string. -/
theorem Sprint_one_string (x : String) : Sprint [Value.str x] = x := by
  apply String.ext
  simp [Sprint, doPrint, Value.repr]

/-- The two ways in which the emitters build their text agree: the template
made of a tag and two string verbs, applied to a formatted message and the
fields, and `Sprint` of the tag formatted with the message, a space and the
fields. -/
theorem two_ways_same_text (F : Fmt) (tag format : String) (args : List Value)
    (hp : '%' ∉ tag.data) (fields : String) :
    Sprintf F (tag ++ "%s %s") [Value.str (Sprint [Value.str (Sprintf F format args)]),
        Value.str fields]
      = Sprint [Value.str (Sprintf F (tag ++ format) args), Value.str " ", Value.str fields] := by
  rw [Sprintf_two_strings F _ _ _ hp, Sprint_three_strings, Sprintf_literal F _ _ _ hp,
    Sprint_one_string]

/-- C12: the leveled and the formatted emitter of one level agree.  For every
simple logger, every template and every list of operands, and for one
visiting order of the field context, `Debugf` with the template and the
operands does what `Debug` does with the one string that the substitution
of the operands into the template gives, also where the rendering of the
fields fails; the same holds for `Infof` and `Info`, `Warnf` and `Warn`,
`Errorf` and `Error`.  For every rendering of the fields, the text built by
`Printf` from the template of the leveled emitter is the text built by
`Print` from the formatted message, a space and the fields. -/
theorem formatted_eq_leveled (F : Fmt) (b : simple) (w : World) (format : String)
    (args : List Value) (ord : List Entry) :
    b.Debugf F w format args ord = b.Debug F w [Value.str (Sprintf F format args)] ord ∧
    b.Infof F w format args ord = b.Info F w [Value.str (Sprintf F format args)] ord ∧
    b.Warnf F w format args ord = b.Warn F w [Value.str (Sprintf F format args)] ord ∧
    b.Errorf F w format args ord = b.Error F w [Value.str (Sprintf F format args)] ord ∧
    (∀ fields : String,
      Sprintf F "[DEBUG] %s %s" [Value.str (Sprint [Value.str (Sprintf F format args)]),
          Value.str fields]
        = Sprint [Value.str (Sprintf F ("[DEBUG] " ++ format) args), Value.str " ",
            Value.str fields]) ∧
    (∀ fields : String,
      Sprintf F "[INFO] %s %s" [Value.str (Sprint [Value.str (Sprintf F format args)]),
          Value.str fields]
        = Sprint [Value.str (Sprintf F ("[INFO] " ++ format) args), Value.str " ",
            Value.str fields]) ∧
    (∀ fields : String,
      Sprintf F "[WARN] %s %s" [Value.str (Sprint [Value.str (Sprintf F format args)]),
          Value.str fields]
        = Sprint [Value.str (Sprintf F ("[WARN] " ++ format) args), Value.str " ",
            Value.str fields]) ∧
    (∀ fields : String,
      Sprintf F "[ERROR] %s %s" [Value.str (Sprint [Value.str (Sprintf F format args)]),
          Value.str fields]
        = Sprint [Value.str (Sprintf F ("[ERROR] " ++ format) args), Value.str " ",
            Value.str fields]) := by
  have hDebug := two_ways_same_text F "[DEBUG] " format args (by decide)
  have hInfo := two_ways_same_text F "[INFO] " format args (by decide)
  have hWarn := two_ways_same_text F "[WARN] " format args (by decide)
  have hError := two_ways_same_text F "[ERROR] " format args (by decide)
  have eDebug : b.Debugf F w format args ord
      = b.Debug F w [Value.str (Sprintf F format args)] ord := by
    unfold simple.Debugf simple.Debug stdlog.Printf stdlog.Print
    cases pretty F w.heap b.fields ord with
    | none => rfl
    | some fields =>
      simp only [Option.map_some']
      rw [show "[DEBUG] %s %s" = "[DEBUG] " ++ "%s %s" from by decide, hDebug fields]
  have eInfo : b.Infof F w format args ord
      = b.Info F w [Value.str (Sprintf F format args)] ord := by
    unfold simple.Infof simple.Info stdlog.Printf stdlog.Print
    cases pretty F w.heap b.fields ord with
    | none => rfl
    | some fields =>
      simp only [Option.map_some']
      rw [show "[INFO] %s %s" = "[INFO] " ++ "%s %s" from by decide, hInfo fields]
  have eWarn : b.Warnf F w format args ord
      = b.Warn F w [Value.str (Sprintf F format args)] ord := by
    unfold simple.Warnf simple.Warn stdlog.Printf stdlog.Print
    cases pretty F w.heap b.fields ord with
    | none => rfl
    | some fields =>
      simp only [Option.map_some']
      rw [show "[WARN] %s %s" = "[WARN] " ++ "%s %s" from by decide, hWarn fields]
  have eError : b.Errorf F w format args ord
      = b.Error F w [Value.str (Sprintf F format args)] ord := by
    unfold simple.Errorf simple.Error stdlog.Printf stdlog.Print
    cases pretty F w.heap b.fields ord with
    | none => rfl
    | some fields =>
      simp only [Option.map_some']
      rw [show "[ERROR] %s %s" = "[ERROR] " ++ "%s %s" from by decide, hError fields]
  exact ⟨eDebug, eInfo, eWarn, eError, hDebug, hInfo, hWarn, hError⟩

/-- In the union of two maps a key has the value of the first map, or else
the value of the second. -/
theorem lookup_union_or (s₁ s₂ : GoMap) (k : String) :
    (s₁ ∪ s₂).lookup k = (s₁.lookup k).or (s₂.lookup k) := by
  by_cases h : k ∈ s₁
  · rw [AList.lookup_union_left h]
    obtain ⟨v, hv⟩ := Option.isSome_iff_exists.1 (AList.lookup_isSome.2 h)
    rw [hv]; rfl
  · rw [AList.lookup_union_right h, AList.lookup_eq_none.2 h]; rfl

/-- Two maps with the same lookups hold the same key-value pairs. -/
theorem entries_perm_of_lookup (R S : GoMap) (h : ∀ k, R.lookup k = S.lookup k) :
    R.entries.Perm S.entries :=
  List.lookup_ext R.nodupKeys S.nodupKeys fun k v => by
    have := h k
    unfold AList.lookup at this
    rw [this]

/-- C13: `WithFields` composes like the merge of maps.  Let `B` be derived from
the simple logger `l` with the map `f`.  The logger derived from `B` with
the map `g` has the field context of the logger derived from `l` with a map
that holds `f` merged with `g`, `g` winning; the logger derived from `l`
with a map without entries has the field context of `l`; and the logger
derived from `B` with `f` once more has the field context of `B`.  The
field contexts are equal as sets of key-value pairs: they have the same
lookups and the same entries up to their order. -/
theorem WithFields_compose (l B C D E T : simple) (w w1 w2 w3 w4 w5 : World)
    (f g m e : MapRef) (o1 o2 o3 o4 o5 o6 o7 o8 o9 o10 : List Entry)
    (hf : w.heap.valid f) (hg : w.heap.valid g)
    (hm : ∀ k, (w.heap.deref m).lookup k
      = ((w.heap.deref g).lookup k).or ((w.heap.deref f).lookup k))
    (he : (w.heap.deref e).entries = [])
    (hB : l.WithFields w f o1 o2 = (w1, B)) (hC : B.WithFields w1 g o3 o4 = (w2, C))
    (hD : l.WithFields w m o5 o6 = (w3, D)) (hE : l.WithFields w e o7 o8 = (w4, E))
    (hT : B.WithFields w1 f o9 o10 = (w5, T))
    (h1 : o1.Perm (l.context w).entries) (h2 : o2.Perm (w.heap.deref f).entries)
    (h3 : o3.Perm (B.context w1).entries) (h4 : o4.Perm (w1.heap.deref g).entries)
    (h5 : o5.Perm (l.context w).entries) (h6 : o6.Perm (w.heap.deref m).entries)
    (h7 : o7.Perm (l.context w).entries) (h8 : o8.Perm (w.heap.deref e).entries)
    (h9 : o9.Perm (B.context w1).entries) (h10 : o10.Perm (w1.heap.deref f).entries) :
    (∀ k, (C.context w2).lookup k = (D.context w3).lookup k) ∧
    (C.context w2).entries.Perm (D.context w3).entries ∧
    (∀ k, (E.context w4).lookup k = (l.context w).lookup k) ∧
    (E.context w4).entries.Perm (l.context w).entries ∧
    (∀ k, (T.context w5).lookup k = (B.context w1).lookup k) ∧
    (T.context w5).entries.Perm (B.context w1).entries := by
  have e1 : w1 = (l.WithFields w f o1 o2).1 := by rw [hB]
  have eB : B = (l.WithFields w f o1 o2).2 := by rw [hB]
  have ag1 : ∀ a, a < w.heap.next → w1.heap.maps a = w.heap.maps a := fun a ha => by
    rw [e1]; exact WithFields_agree l w f o1 o2 a ha
  have hf1 : w1.heap.deref f = w.heap.deref f := deref_of_agree _ _ _ hf ag1
  have hg1 : w1.heap.deref g = w.heap.deref g := deref_of_agree _ _ _ hg ag1
  have lB : ∀ k, (B.context w1).lookup k
      = ((w.heap.deref f).lookup k).or ((l.context w).lookup k) := fun k => by
    have := WithFields_lookup l w f o1 o2 h1 h2 k
    rw [← e1, ← eB] at this
    exact this
  have lC : ∀ k, (C.context w2).lookup k
      = ((w.heap.deref g).lookup k).or ((B.context w1).lookup k) := fun k => by
    have := WithFields_lookup B w1 g o3 o4 h3 h4 k
    rw [hC, hg1] at this
    exact this
  have lD : ∀ k, (D.context w3).lookup k
      = ((w.heap.deref m).lookup k).or ((l.context w).lookup k) := fun k => by
    have := WithFields_lookup l w m o5 o6 h5 h6 k
    rw [hD] at this
    exact this
  have lE : ∀ k, (E.context w4).lookup k
      = ((w.heap.deref e).lookup k).or ((l.context w).lookup k) := fun k => by
    have := WithFields_lookup l w e o7 o8 h7 h8 k
    rw [hE] at this
    exact this
  have lT : ∀ k, (T.context w5).lookup k
      = ((w.heap.deref f).lookup k).or ((B.context w1).lookup k) := fun k => by
    have := WithFields_lookup B w1 f o9 o10 h9 h10 k
    rw [hT, hf1] at this
    exact this
  have hCD : ∀ k, (C.context w2).lookup k = (D.context w3).lookup k := fun k => by
    rw [lC k, lB k, lD k, hm k]
    cases (w.heap.deref g).lookup k <;> cases (w.heap.deref f).lookup k <;> rfl
  have hEl : ∀ k, (E.context w4).lookup k = (l.context w).lookup k := fun k => by
    have hnone : (w.heap.deref e).lookup k = none := by
      unfold AList.lookup
      rw [he]; rfl
    rw [lE k, hnone]; rfl
  have hTB : ∀ k, (T.context w5).lookup k = (B.context w1).lookup k := fun k => by
    rw [lT k, lB k]
    cases (w.heap.deref f).lookup k <;> rfl
  exact ⟨hCD, entries_perm_of_lookup _ _ hCD, hEl, entries_perm_of_lookup _ _ hEl, hTB,
    entries_perm_of_lookup _ _ hTB⟩

/-- C13 at a logger with `foo: oldval, baz: origval`, the maps `foo: newval,
biz: buzz` and `biz: last, buz: 2`: deriving with the first and then with
the second map, and deriving with the merged map, both give `foo: newval,
baz: origval, biz: last, buz: 2`; deriving with the map without entries
gives the pairs of the receiver; deriving with the first map twice gives
what deriving with it once gives. -/
theorem WithFields_compose_witness :
    ((∀ k, (composeC.2.context composeC.1).lookup k
        = (composeD.2.context composeD.1).lookup k) ∧
      (composeC.2.context composeC.1).entries.Perm (composeD.2.context composeD.1).entries ∧
      (∀ k, (composeE.2.context composeE.1).lookup k
        = ((⟨some 0⟩ : simple).context composeWorld).lookup k) ∧
      (composeE.2.context composeE.1).entries.Perm
        ((⟨some 0⟩ : simple).context composeWorld).entries ∧
      (∀ k, (composeT.2.context composeT.1).lookup k
        = (composeB.2.context composeB.1).lookup k) ∧
      (composeT.2.context composeT.1).entries.Perm (composeB.2.context composeB.1).entries) ∧
    (composeC.2.context composeC.1).entries
      = [⟨"biz", Value.str "last"⟩, ⟨"buz", Value.int 2⟩, ⟨"baz", Value.str "origval"⟩,
          ⟨"foo", Value.str "newval"⟩] ∧
    (composeD.2.context composeD.1).entries
      = [⟨"foo", Value.str "newval"⟩, ⟨"biz", Value.str "last"⟩, ⟨"buz", Value.int 2⟩,
          ⟨"baz", Value.str "origval"⟩] ∧
    (composeE.2.context composeE.1).entries
      = [⟨"foo", Value.str "oldval"⟩, ⟨"baz", Value.str "origval"⟩] ∧
    (composeT.2.context composeT.1).entries = (composeB.2.context composeB.1).entries :=
  ⟨WithFields_compose ⟨some 0⟩ composeB.2 composeC.2 composeD.2 composeE.2 composeT.2
      composeWorld composeB.1 composeC.1 composeD.1 composeE.1 composeT.1
      (some 1) (some 2) (some 3) (some 4)
      (composeWorld.heap.deref (some 0)).entries (composeWorld.heap.deref (some 1)).entries
      (composeB.2.context composeB.1).entries (composeB.1.heap.deref (some 2)).entries
      (composeWorld.heap.deref (some 0)).entries (composeWorld.heap.deref (some 3)).entries
      (composeWorld.heap.deref (some 0)).entries (composeWorld.heap.deref (some 4)).entries
      (composeB.2.context composeB.1).entries (composeB.1.heap.deref (some 1)).entries
      (by decide) (by decide) (fun k => lookup_union_or composeG composeF k) (by decide)
      rfl rfl rfl rfl rfl
      (List.Perm.refl _) (List.Perm.refl _) (List.Perm.refl _) (List.Perm.refl _)
      (List.Perm.refl _) (List.Perm.refl _) (List.Perm.refl _) (List.Perm.refl _)
      (List.Perm.refl _) (List.Perm.refl _),
    by decide, by decide, by decide, by decide⟩

end GoLogger
